import Mathlib

/-!
# Verification of the merge-queue lease provider

Shallow embedding of `internal/lease/leaseprovider.go` from
`ankorstore/mq-lease-service`.  Time instants and durations are modelled as
`Int` (the Go code only compares and subtracts `time.Time`/`time.Duration`
values through the injected passive clock).  The Go `map[string]*Request` is
modelled as an association list with the first occurrence of a key being the
binding; all operations of the source keep keys unique.  The Go `acquired`
field is a pointer aliasing the map entry stored under `acquired.HeadSHA`
(the `HeadSHA` field of a stored request is never mutated, so the key under
which the acquired object lives is exactly its `headSHA`); the model stores
the current value of that object in `acquired` and mirrors every in-place
mutation of the map entry with the same key, which reproduces the source's
aliasing, including the dangling reference left behind by a FAILURE release.
-/

namespace Lease

/-- The five status strings of `leaseprovider.go` (`StatusPending` … ). -/
inductive Status where
  | pending
  | acquired
  | failure
  | success
  | completed
deriving DecidableEq, Repr

/-- Go `Request`: head SHA, head ref, priority, optional status
(`*string` in Go, `none` = no assertion), and the last-seen stamp
(`lastSeenAt`; always set by `insert` before first use, modelled total). -/
structure Request where
  headSHA : String
  headRef : String
  priority : Int
  status : Option Status
  lastSeenAt : Int
deriving DecidableEq, Repr

/-- Go `ProviderOpts`: the configuration of one provider (the `ID`, clock,
storage and metrics fields are not part of the decision logic). -/
structure ProviderOpts where
  stabilizeDuration : Int
  ttl : Int
  expectedRequestCount : Int
deriving DecidableEq, Repr

/-- Go `ProviderState`: in-memory representation of one merge queue. -/
structure ProviderState where
  id : String
  lastUpdatedAt : Int
  acquired : Option Request
  known : List (String × Request)
deriving DecidableEq, Repr

/-- Go `pointer.StringDeref(s, def)` on an optional status. -/
def statusDeref (s : Option Status) (d : Status) : Status :=
  s.getD d

/-- First binding of `k` in the association list (Go map lookup). -/
def lookupSHA (l : List (String × Request)) (k : String) : Option Request :=
  match l with
  | [] => none
  | (k', v) :: t => if k' = k then some v else lookupSHA t k

/-- Replace the first binding of `k` by `r` (in-place mutation of the map
object stored under `k`). -/
def updateSHA (l : List (String × Request)) (k : String) (r : Request) :
    List (String × Request) :=
  match l with
  | [] => []
  | (k', v) :: t => if k' = k then (k', r) :: t else (k', v) :: updateSHA t k r

/-- Go `delete(m, k)` on the Go map. -/
def eraseSHA (l : List (String × Request)) (k : String) :
    List (String × Request) :=
  l.filter (fun kv => ¬ (kv.1 = k))

/-- Append a fresh binding (Go map assignment for a key not yet present;
iteration order of the model is insertion order). -/
def insertSHA (l : List (String × Request)) (k : String) (r : Request) :
    List (String × Request) :=
  l ++ [(k, r)]

/-- Write `r` to the map entry under key `k` and mirror the mutation into
the aliased `acquired` pointer when `acquired` is the object stored under
`k` (in the source both are the same object, so a single Go assignment). -/
def setKnownMirror (s : ProviderState) (k : String) (r : Request) :
    ProviderState :=
  { s with
    known := updateSHA s.known k r
    acquired := s.acquired.map (fun a => if a.headSHA = k then r else a) }

/-- Go `cleanup`: when the acquired request has reported COMPLETED and it is
the sole remaining request, drop it and clear `acquired`. -/
def cleanup (s : ProviderState) : ProviderState :=
  match s.acquired with
  | none => s
  | some a =>
    if statusDeref a.status .acquired ≠ .completed then s
    else if s.known.length = 1 then
      { s with known := eraseSHA s.known a.headSHA, acquired := none }
    else s

/-- Go `evictTTL`: drop every request whose dereferenced status is not
ACQUIRED/SUCCESS and whose last-seen stamp is more than `ttl` old. -/
def evictTTL (opts : ProviderOpts) (now : Int) (s : ProviderState) :
    ProviderState :=
  { s with known := s.known.filter (fun kv =>
      let st := statusDeref kv.2.status .pending
      st = .acquired ∨ st = .success ∨ ¬ (now - kv.2.lastSeenAt > opts.ttl)) }

/-- Go `insert`: add or update the lease request in `known`, following the
source's order of effects (cleanup, last-seen bump, new/existing branch,
status allowlist, `lastUpdatedAt` bump, TTL eviction).  Returns the map
entry looked up after eviction (`lp.state.known[leaseRequest.HeadSHA]`),
or the error of the source; error returns leave the state exactly as the
already-applied in-place mutations left it. -/
def insert (opts : ProviderOpts) (now : Int) (s : ProviderState)
    (req : Request) : Except String (Option Request) × ProviderState :=
  let s1 := cleanup s
  match lookupSHA s1.known req.headSHA with
  | none =>
    if s1.acquired.isSome then
      (Except.error "lease already acquired", s1)
    else if req.status.isSome ∧ statusDeref req.status .pending ≠ .pending then
      (Except.error "invalid status for new LeaseRequest", s1)
    else
      let stored : Request :=
        { req with lastSeenAt := now, status := some .pending }
      let s2 : ProviderState :=
        { s1 with known := insertSHA s1.known req.headSHA stored,
                  lastUpdatedAt := now }
      let s3 := evictTTL opts now s2
      (Except.ok (lookupSHA s3.known req.headSHA), s3)
  | some existing =>
    let changedPrio : Bool := existing.priority ≠ req.priority
    let e1 : Request :=
      if existing.priority ≠ req.priority then
        { existing with priority := req.priority } else existing
    let changedRef : Bool := e1.headRef ≠ req.headRef
    let e2 : Request :=
      if e1.headRef ≠ req.headRef then
        { e1 with headRef := req.headRef } else e1
    let existingStatus := statusDeref existing.status .pending
    let reqStatus := statusDeref req.status .pending
    let statusMismatch : Prop := existingStatus ≠ reqStatus
    let allowedTransition : Prop :=
      existingStatus = .acquired ∧ (reqStatus = .success ∨ reqStatus = .failure)
    if statusMismatch ∧ allowedTransition then
      let e3 : Request := { e2 with status := some reqStatus, lastSeenAt := now }
      let s2 := setKnownMirror s1 req.headSHA e3
      let s3 : ProviderState := { s2 with lastUpdatedAt := now }
      let s4 := evictTTL opts now s3
      (Except.ok (lookupSHA s4.known req.headSHA), s4)
    else if statusMismatch then
      (Except.error "status missmatch", setKnownMirror s1 req.headSHA e2)
    else
      let e3 : Request := { e2 with lastSeenAt := now }
      let s2 := setKnownMirror s1 req.headSHA e3
      let s3 : ProviderState :=
        if changedPrio ∨ changedRef then { s2 with lastUpdatedAt := now } else s2
      let s4 := evictTTL opts now s3
      (Except.ok (lookupSHA s4.known req.headSHA), s4)

/-- The maximum priority over all known requests (0 when none is larger). -/
def maxPriority (s : ProviderState) : Int :=
  s.known.foldl (fun m kv => if kv.2.priority > m then kv.2.priority else m) 0

/-- The election body of `evaluateRequest`: the caller wins iff its
priority equals the maximum priority over `known`; a win mutates the map
entry under `key` in place and points `acquired` at it. -/
def electRequest (s : ProviderState) (key : String) (req : Request) :
    Request × ProviderState :=
  if req.priority = maxPriority s then
    let req' : Request := { req with status := some .acquired }
    let s' : ProviderState :=
      { s with known := updateSHA s.known key req', acquired := some req' }
    (req', s')
  else
    (req, s)

/-- Go `evaluateRequest`: the selection step.  `req` is the map entry under
`key` (the caller's head SHA); the first guard returns early when a lock
is held whose status is not FAILURE, the second when neither the
stabilisation window nor the expected request count has been reached
while no lock reference exists at all. -/
def evaluateRequest (opts : ProviderOpts) (now : Int) (s : ProviderState)
    (key : String) (req : Request) : Request × ProviderState :=
  match s.acquired with
  | some a =>
    if ¬ (statusDeref a.status .acquired = .failure) then (req, s)
    else electRequest s key req
  | none =>
    let passedStabilizeDuration : Prop :=
      now - s.lastUpdatedAt ≥ opts.stabilizeDuration
    let reachedExpectedRequestCount : Prop :=
      (s.known.length : Int) ≥ opts.expectedRequestCount
    if ¬ passedStabilizeDuration ∧ ¬ reachedExpectedRequestCount then
      (req, s)
    else electRequest s key req

/-- Go `Acquire` (logic under the mutex; metrics/persistence dropped).  The
`Except.error "nil lease request"` branch marks the source's nil-pointer
path, reachable only with a negative TTL evicting the entry just touched. -/
def acquire (opts : ProviderOpts) (now : Int) (s : ProviderState)
    (req : Request) : Except String Request × ProviderState :=
  match insert opts now s req with
  | (Except.error e, s') => (Except.error e, s')
  | (Except.ok none, s') => (Except.error "nil lease request", s')
  | (Except.ok (some r), s') =>
    match s'.acquired with
    | some a =>
      if statusDeref a.status .pending = .completed then
        let r' : Request := { r with status := some .completed }
        let s'' : ProviderState :=
          { s' with known := eraseSHA (updateSHA s'.known req.headSHA r') req.headSHA,
                    acquired := if a.headSHA = req.headSHA then some r' else some a }
        (Except.ok r', s'')
      else
        let (res, s'') := evaluateRequest opts now s' req.headSHA r
        (Except.ok res, s'')
    | none =>
      let (res, s'') := evaluateRequest opts now s' req.headSHA r
      (Except.ok res, s'')

/-- Go `Release` (logic under the mutex).  The source's 'unknown condition'
branch returns both a request and an error; the model keeps the error. -/
def release (opts : ProviderOpts) (now : Int) (s : ProviderState)
    (req : Request) : Except String Request × ProviderState :=
  match s.acquired with
  | none => (Except.error "no lease acquired", s)
  | some a =>
    if a.headSHA ≠ req.headSHA then
      (Except.error "commit does not hold the lease", s)
    else
      match insert opts now s req with
      | (Except.error e, s') => (Except.error e, s')
      | (Except.ok none, s') => (Except.error "nil lease request", s')
      | (Except.ok (some r), s') =>
        let status := statusDeref r.status .acquired
        if status = .success then
          let r' : Request := { r with status := some .completed }
          (Except.ok r', setKnownMirror s' req.headSHA r')
        else if status = .failure then
          let s'' : ProviderState := { s' with known := eraseSHA s'.known req.headSHA }
          let s''' : ProviderState :=
            if s''.known.length = 0 then { s'' with acquired := none } else s''
          (Except.ok r, s''')
        else
          (Except.error "unknown condition", s')

/-- Go `Clear`: replace the state with an empty one (same id). -/
def clear (now : Int) (s : ProviderState) : ProviderState :=
  { id := s.id, lastUpdatedAt := now, acquired := none, known := [] }

/-- Go `NewProviderState` as built by `NewLeaseProvider`: empty known map,
no acquired request. -/
def initialState (id : String) (now : Int) : ProviderState :=
  { id := id, lastUpdatedAt := now, acquired := none, known := [] }

end Lease

namespace Lease

/-- Go `providerStateRequestStorePayload`: the per-request persistence record
(the model's `lastSeenAt` is total, so the payload field is too). -/
structure RequestStorePayload where
  headSHA : String
  headRef : String
  priority : Int
  status : Option Status
  lastSeenAt : Int
deriving DecidableEq, Repr

/-- Go `providerStateStorePayload`: the persisted provider blob; `acquired`
is stored as the head SHA of the acquired request, or absent. -/
structure StorePayload where
  id : String
  lastUpdatedAt : Int
  acquiredSHA : Option String
  known : List (String × RequestStorePayload)
deriving DecidableEq, Repr

/-- The per-request part of `ProviderState.Marshal`. -/
def requestToPayload (r : Request) : RequestStorePayload :=
  { headSHA := r.headSHA, headRef := r.headRef, priority := r.priority,
    status := r.status, lastSeenAt := r.lastSeenAt }

/-- The per-request part of `ProviderState.Unmarshal`. -/
def requestOfPayload (p : RequestStorePayload) : Request :=
  { headSHA := p.headSHA, headRef := p.headRef, priority := p.priority,
    status := p.status, lastSeenAt := p.lastSeenAt }

/-- Go `ProviderState.Marshal`: store the acquired request as its head SHA
and every known request as its payload record. -/
def marshal (s : ProviderState) : StorePayload :=
  { id := s.id
    lastUpdatedAt := s.lastUpdatedAt
    acquiredSHA := s.acquired.map (fun a => a.headSHA)
    known := s.known.map (fun kv => (kv.1, requestToPayload kv.2)) }

/-- Go `ProviderState.Unmarshal` on a receiver whose current `acquired`
pointer is `prevAcquired` (a fresh provider has `none`): the known map is
rebuilt from the payload; `acquired` is reassigned only when the blob
carries an `acquired_sha`, and then by a map lookup that yields the Go
zero value `nil` — here `none` — when the SHA is not a key of the
rebuilt map. -/
def unmarshal (prevAcquired : Option Request) (p : StorePayload) :
    ProviderState :=
  let known := p.known.map (fun kp => (kp.1, requestOfPayload kp.2))
  { id := p.id
    lastUpdatedAt := p.lastUpdatedAt
    known := known
    acquired := match p.acquiredSHA with
      | none => prevAcquired
      | some sha => lookupSHA known sha }

end Lease

namespace Lease

/-- Hexadecimal character class of `refRegex` (`[0-9a-fA-F]`). -/
def isHexChar (c : Char) : Bool :=
  c.isDigit || ('a' ≤ c && c ≤ 'f') || ('A' ≤ c && c ≤ 'F')

/-- Split a character list at its first `'/'`; `none` when there is no
slash. -/
def splitAtSlash (cs : List Char) : Option (List Char × List Char) :=
  match cs with
  | [] => none
  | c :: t =>
    if c = '/' then some ([], t)
    else match splitAtSlash t with
      | none => none
      | some (a, b) => some (c :: a, b)

/-- Numeric value of a decimal digit string. -/
def natOfDigits (cs : List Char) : Nat :=
  cs.foldl (fun a c => 10 * a + (c.toNat - ('0').toNat)) 0

/-- The anchored match of
`refRegex = ^gh-readonly-queue/([^/]+)/pr-(\d+)-([0-9a-fA-F]+)$`,
returning the three capture groups (base ref, PR digits, hex suffix).
The regex is deterministic: the base group is delimited by the two
slashes (its class excludes `/`), the digit group by the following `-`
(neither class contains `-` or `/`). -/
def matchRef (ref : String) : Option (List Char × List Char × List Char) :=
  let cs := ref.toList
  let pre := "gh-readonly-queue/".toList
  if cs.take pre.length = pre then
    match splitAtSlash (cs.drop pre.length) with
    | none => none
    | some (base, rest) =>
      if base ≠ [] ∧ base.all (fun c => ¬ (c = '/')) then
        let pr := "pr-".toList
        if rest.take pr.length = pr then
          let tail := rest.drop pr.length
          let digits := tail.takeWhile Char.isDigit
          let rest2 := tail.dropWhile Char.isDigit
          match rest2 with
          | '-' :: hex =>
            if digits ≠ [] ∧ hex ≠ [] ∧ hex.all isHexChar then
              some (base, digits, hex)
            else none
          | _ => none
        else none
      else none
  else none

/-- Go `getPRNumberFromRef`: extract the PR number via `refRegex`, then
`strconv.Atoi`, which fails when the decimal value exceeds the host's
64-bit signed integer range. -/
def getPRNumberFromRef (ref : String) : Except String Int :=
  match matchRef ref with
  | none => Except.error "could not extract PR number from ref: invalid ref format"
  | some (_, digits, _) =>
    if natOfDigits digits ≤ 9223372036854775807 then
      Except.ok (natOfDigits digits)
    else
      Except.error "could not extract PR number from ref: invalid PR integer"

end Lease

namespace Lease

/-- The comparison used by `computeStackedPullRequests`'s stable sort:
ascending request priority. -/
def priorityLE (a b : String × Request) : Prop :=
  a.2.priority ≤ b.2.priority

instance : DecidableRel priorityLE :=
  fun a b => inferInstanceAs (Decidable (a.2.priority ≤ b.2.priority))

instance : IsTotal (String × Request) priorityLE :=
  ⟨fun a b => Int.le_total a.2.priority b.2.priority⟩

instance : IsTrans (String × Request) priorityLE :=
  ⟨fun _ _ _ h1 h2 => le_trans h1 h2⟩

/-- The filter step of `computeStackedPullRequests`: keep the requests
whose priority does not exceed the caller's. -/
def stackedFilter (s : ProviderState) (req : Request) :
    List (String × Request) :=
  s.known.filter (fun kv => ¬ (kv.2.priority > req.priority))

/-- The sort step of `computeStackedPullRequests`: `sort.SliceStable` by
ascending priority, modelled by insertion sort (which is the stable sort:
an element is inserted before the first element it is `≤` to, and the
fold processes the list from the right, so equal-priority entries keep
their relative order). -/
def stackedSorted (s : ProviderState) (req : Request) :
    List (String × Request) :=
  (stackedFilter s req).insertionSort priorityLE

/-- The parse loop of `computeStackedPullRequests`: extract the PR number
of every entry in order, stopping at the first unparseable head ref. -/
def stackNumbers : List (String × Request) → Except String (List Int)
  | [] => Except.ok []
  | kv :: t =>
    match getPRNumberFromRef kv.2.headRef with
    | Except.error e => Except.error e
    | Except.ok n =>
      match stackNumbers t with
      | Except.error e => Except.error e
      | Except.ok ns => Except.ok (n :: ns)

/-- Go `computeStackedPullRequests` for a non-nil lease request. -/
def computeStackedPullRequests (s : ProviderState) (req : Request) :
    Except String (List Int) :=
  stackNumbers (stackedSorted s req)

/-- Go `RequestContext`: a request plus, for the winner, its stacked
pull-request numbers. -/
structure RequestContext where
  request : Request
  stackedPullRequests : Option (List Int)
deriving DecidableEq, Repr

/-- Go `BuildRequestContext` for a non-nil lease request: the stacked list
is computed exactly when the dereferenced status is ACQUIRED, and a parse
failure is surfaced as an error. -/
def buildRequestContext (s : ProviderState) (req : Request) :
    Except String RequestContext :=
  if statusDeref req.status .pending ≠ .acquired then
    Except.ok { request := req, stackedPullRequests := none }
  else
    match computeStackedPullRequests s req with
    | Except.error e => Except.error e
    | Except.ok l => Except.ok { request := req, stackedPullRequests := some l }

end Lease

namespace Lease

/-- Modelled from the spec: the repository revision carrying the
delayed-assignment feature (`ProviderOpts.DelayAssignmentCount`, the
`delayCounter` field of `ProviderState` and its use in `evaluateRequest`)
is not part of the sources; only its tests and the orchestrator caller
are.  A provider state extended with the delay counter of spec §3. -/
structure DelayProviderState where
  base : ProviderState
  delayCounter : Int
deriving DecidableEq, Repr

/-- Modelled from the spec: §4.1.2 step 5 — when the selection step would
elect the caller (priority equal to the maximum), the provider first
checks the delay counter: `if delayCounter < DelayAssignmentCount,
increment delayCounter and leave PENDING`, else assign the lease. -/
def electRequestDelay (d : Int) (s : DelayProviderState) (key : String)
    (req : Request) : Request × DelayProviderState :=
  if req.priority = maxPriority s.base then
    if s.delayCounter < d then
      (req, { s with delayCounter := s.delayCounter + 1 })
    else
      let req' : Request := { req with status := some .acquired }
      let base' : ProviderState :=
        { s.base with known := updateSHA s.base.known key req',
                      acquired := some req' }
      (req', { s with base := base' })
  else
    (req, s)

/-- Modelled from the spec: `evaluateRequest` of the delayed-assignment
revision — identical to the source's `evaluateRequest` except that the
election goes through the delay counter. -/
def evaluateRequestDelay (opts : ProviderOpts) (d : Int) (now : Int)
    (s : DelayProviderState) (key : String) (req : Request) :
    Request × DelayProviderState :=
  match s.base.acquired with
  | some a =>
    if ¬ (statusDeref a.status .acquired = .failure) then (req, s)
    else electRequestDelay d s key req
  | none =>
    let passedStabilizeDuration : Prop :=
      now - s.base.lastUpdatedAt ≥ opts.stabilizeDuration
    let reachedExpectedRequestCount : Prop :=
      (s.base.known.length : Int) ≥ opts.expectedRequestCount
    if ¬ passedStabilizeDuration ∧ ¬ reachedExpectedRequestCount then
      (req, s)
    else electRequestDelay d s key req

/-- Modelled from the spec: `Acquire` of the delayed-assignment revision —
insert, post-acquire shortcut and selection as in the source, with the
selection step replaced by the delayed one (§4.1.2). -/
def acquireDelay (opts : ProviderOpts) (d : Int) (now : Int)
    (s : DelayProviderState) (req : Request) :
    Except String Request × DelayProviderState :=
  match insert opts now s.base req with
  | (Except.error e, s') => (Except.error e, { s with base := s' })
  | (Except.ok none, s') => (Except.error "nil lease request", { s with base := s' })
  | (Except.ok (some r), s') =>
    match s'.acquired with
    | some a =>
      if statusDeref a.status .pending = .completed then
        let r' : Request := { r with status := some .completed }
        let s'' : ProviderState :=
          { s' with known := eraseSHA (updateSHA s'.known req.headSHA r') req.headSHA,
                    acquired := if a.headSHA = req.headSHA then some r' else some a }
        (Except.ok r', { s with base := s'' })
      else
        let (res, s'') :=
          evaluateRequestDelay opts d now { s with base := s' } req.headSHA r
        (Except.ok res, s'')
    | none =>
      let (res, s'') :=
        evaluateRequestDelay opts d now { s with base := s' } req.headSHA r
      (Except.ok res, s'')

end Lease

namespace Lease

theorem lookupSHA_mem {l : List (String × Request)} {k : String} {v : Request}
    (h : lookupSHA l k = some v) : (k, v) ∈ l := by
  induction l with
  | nil => simp [lookupSHA] at h
  | cons kv t ih =>
    obtain ⟨k', v'⟩ := kv
    by_cases hk : k' = k
    · subst hk
      simp [lookupSHA] at h
      subst h
      exact List.mem_cons_self _ _
    · simp [lookupSHA, hk] at h
      exact List.mem_cons_of_mem _ (ih h)

theorem lookupSHA_eq_none_iff {l : List (String × Request)} {k : String} :
    lookupSHA l k = none ↔ k ∉ l.map Prod.fst := by
  induction l with
  | nil => simp [lookupSHA]
  | cons kv t ih =>
    obtain ⟨k', v'⟩ := kv
    by_cases hk : k' = k
    · subst hk
      simp [lookupSHA]
    · simp [lookupSHA, hk, ih]
      intro h
      exact fun hkk => hk hkk.symm

theorem mem_updateSHA {l : List (String × Request)} {k : String} {r : Request}
    {kv : String × Request} (h : kv ∈ updateSHA l k r) :
    kv = (k, r) ∨ kv ∈ l := by
  induction l with
  | nil => simp [updateSHA] at h
  | cons kv' t ih =>
    obtain ⟨k', v'⟩ := kv'
    by_cases hk : k' = k
    · subst hk
      simp [updateSHA] at h
      rcases h with h | h
      · left; simp [h]
      · right; exact List.mem_cons_of_mem _ h
    · simp [updateSHA, hk] at h
      rcases h with h | h
      · right; simp [h]
      · rcases ih h with h' | h'
        · left; exact h'
        · right; exact List.mem_cons_of_mem _ h'

theorem lookupSHA_updateSHA_self {l : List (String × Request)} {k : String}
    {v : Request} (r : Request) (h : lookupSHA l k = some v) :
    lookupSHA (updateSHA l k r) k = some r := by
  induction l with
  | nil => simp [lookupSHA] at h
  | cons kv t ih =>
    obtain ⟨k', v'⟩ := kv
    by_cases hk : k' = k
    · subst hk
      simp [updateSHA, lookupSHA]
    · simp [lookupSHA, hk] at h
      simp [updateSHA, lookupSHA, hk]
      exact ih h

theorem lookupSHA_updateSHA_ne {l : List (String × Request)} {k k' : String}
    (r : Request) (h : k' ≠ k) :
    lookupSHA (updateSHA l k r) k' = lookupSHA l k' := by
  induction l with
  | nil => simp [updateSHA]
  | cons kv t ih =>
    obtain ⟨k0, v0⟩ := kv
    by_cases hk : k0 = k
    · subst hk
      have : ¬ (k0 = k') := fun hh => h (hh.symm)
      simp [updateSHA, lookupSHA, this]
    · by_cases hk' : k0 = k'
      · subst hk'
        simp [updateSHA, lookupSHA, hk]
      · simp [updateSHA, lookupSHA, hk, hk']
        exact ih

theorem updateSHA_of_lookup_none {l : List (String × Request)} {k : String}
    (r : Request) (h : lookupSHA l k = none) : updateSHA l k r = l := by
  induction l with
  | nil => simp [updateSHA]
  | cons kv t ih =>
    obtain ⟨k', v'⟩ := kv
    by_cases hk : k' = k
    · subst hk; simp [lookupSHA] at h
    · simp [lookupSHA, hk] at h
      simp [updateSHA, hk, ih h]

theorem length_updateSHA (l : List (String × Request)) (k : String)
    (r : Request) : (updateSHA l k r).length = l.length := by
  induction l with
  | nil => simp [updateSHA]
  | cons kv t ih =>
    obtain ⟨k', v'⟩ := kv
    by_cases hk : k' = k <;> simp [updateSHA, hk, ih]

theorem keys_updateSHA (l : List (String × Request)) (k : String)
    (r : Request) : (updateSHA l k r).map Prod.fst = l.map Prod.fst := by
  induction l with
  | nil => simp [updateSHA]
  | cons kv t ih =>
    obtain ⟨k', v'⟩ := kv
    by_cases hk : k' = k
    · subst hk; simp [updateSHA]
    · simp [updateSHA, hk, ih]

theorem lookupSHA_filter_some {l : List (String × Request)} {k : String}
    {v : Request} {p : String × Request → Bool}
    (h : lookupSHA l k = some v) (hp : p (k, v) = true) :
    lookupSHA (l.filter p) k = some v := by
  induction l with
  | nil => simp [lookupSHA] at h
  | cons kv t ih =>
    obtain ⟨k', v'⟩ := kv
    by_cases hk : k' = k
    · subst hk
      simp [lookupSHA] at h
      subst h
      simp [List.filter_cons, hp, lookupSHA]
    · simp [lookupSHA, hk] at h
      by_cases hpv : p (k', v') = true
      · simp [List.filter_cons, hpv, lookupSHA, hk]
        exact ih h
      · rw [Bool.not_eq_true] at hpv
        simp [List.filter_cons, hpv]
        exact ih h

theorem lookupSHA_filter_none {l : List (String × Request)} {k : String}
    {p : String × Request → Bool} (h : lookupSHA l k = none) :
    lookupSHA (l.filter p) k = none := by
  rw [lookupSHA_eq_none_iff] at h ⊢
  intro hmem
  apply h
  obtain ⟨kv, hkv, hfst⟩ := List.mem_map.mp hmem
  exact List.mem_map.mpr ⟨kv, (List.mem_filter.mp hkv).1, hfst⟩

theorem lookupSHA_of_mem_nodup {l : List (String × Request)} {k : String}
    {v : Request} (hnd : (l.map Prod.fst).Nodup) (hmem : (k, v) ∈ l) :
    lookupSHA l k = some v := by
  induction l with
  | nil => simp at hmem
  | cons kv t ih =>
    obtain ⟨k', v'⟩ := kv
    simp only [List.map_cons, List.nodup_cons] at hnd
    rcases List.mem_cons.mp hmem with h0 | h0
    · obtain ⟨h1, h2⟩ := Prod.mk.injEq .. ▸ h0
      simp [lookupSHA, h1.symm, h2]
    · by_cases hk : k' = k
      · exfalso
        apply hnd.1
        subst hk
        exact List.mem_map.mpr ⟨(k', v), h0, rfl⟩
      · simp [lookupSHA, hk]
        exact ih hnd.2 h0

theorem lookupSHA_filter_nodup {l : List (String × Request)} {k : String}
    {v : Request} {p : String × Request → Bool}
    (hnd : (l.map Prod.fst).Nodup)
    (h : lookupSHA l k = some v) :
    lookupSHA (l.filter p) k = some v ∨
      (lookupSHA (l.filter p) k = none ∧ p (k, v) = false) := by
  by_cases hp : p (k, v) = true
  · exact Or.inl (lookupSHA_filter_some h hp)
  · right
    rw [Bool.not_eq_true] at hp
    refine ⟨?_, hp⟩
    rw [lookupSHA_eq_none_iff]
    intro hmem
    obtain ⟨⟨k0, v0⟩, hkv, hfst⟩ := List.mem_map.mp hmem
    obtain ⟨hmem0, hp0⟩ := List.mem_filter.mp hkv
    simp only at hfst
    subst hfst
    have hvv : v0 = v := by
      have := lookupSHA_of_mem_nodup hnd hmem0
      rw [this] at h
      exact Option.some.inj h
    subst hvv
    rw [hp0] at hp
    exact absurd hp.symm (by simp)

end Lease

namespace Lease

theorem lookupSHA_eraseSHA_self (l : List (String × Request)) (k : String) :
    lookupSHA (eraseSHA l k) k = none := by
  rw [lookupSHA_eq_none_iff]
  intro hmem
  obtain ⟨kv, hkv, hfst⟩ := List.mem_map.mp hmem
  obtain ⟨_, hne⟩ := List.mem_filter.mp hkv
  simp at hne
  exact hne hfst

theorem lookupSHA_eraseSHA_ne {l : List (String × Request)} {k k' : String}
    (h : k' ≠ k) : lookupSHA (eraseSHA l k) k' = lookupSHA l k' := by
  induction l with
  | nil => simp [eraseSHA, lookupSHA]
  | cons kv t ih =>
    obtain ⟨k0, v0⟩ := kv
    by_cases hk0 : k0 = k
    · subst hk0
      have : ¬ (k0 = k') := fun hh => h hh.symm
      simp [eraseSHA, List.filter_cons, lookupSHA, this]
      simpa [eraseSHA] using ih
    · by_cases hk0' : k0 = k'
      · subst hk0'
        simp [eraseSHA, List.filter_cons, hk0, lookupSHA]
      · simp [eraseSHA, List.filter_cons, hk0, lookupSHA, hk0']
        simpa [eraseSHA] using ih

theorem mem_eraseSHA {l : List (String × Request)} {k : String}
    {kv : String × Request} :
    kv ∈ eraseSHA l k ↔ kv ∈ l ∧ kv.1 ≠ k := by
  simp [eraseSHA, List.mem_filter]

theorem mem_insertSHA {l : List (String × Request)} {k : String} {r : Request}
    {kv : String × Request} :
    kv ∈ insertSHA l k r ↔ kv ∈ l ∨ kv = (k, r) := by
  simp [insertSHA]

theorem lookupSHA_insertSHA_self {l : List (String × Request)} {k : String}
    (r : Request) (h : lookupSHA l k = none) :
    lookupSHA (insertSHA l k r) k = some r := by
  induction l with
  | nil => simp [insertSHA, lookupSHA]
  | cons kv t ih =>
    obtain ⟨k0, v0⟩ := kv
    by_cases hk0 : k0 = k
    · subst hk0; simp [lookupSHA] at h
    · simp [lookupSHA, hk0] at h
      simp [insertSHA, lookupSHA, hk0] at ih ⊢
      exact ih h

theorem keys_insertSHA (l : List (String × Request)) (k : String)
    (r : Request) :
    (insertSHA l k r).map Prod.fst = l.map Prod.fst ++ [k] := by
  simp [insertSHA]

theorem keys_filter_sublist (l : List (String × Request))
    (p : String × Request → Bool) :
    ((l.filter p).map Prod.fst).Sublist (l.map Prod.fst) :=
  (List.filter_sublist l).map Prod.fst

end Lease

namespace Lease

/-- The status values an acquired reference can carry (never PENDING). -/
def statusOKForAcquired (a : Request) : Prop :=
  a.status = some Status.acquired ∨ a.status = some Status.success ∨
    a.status = some Status.failure ∨ a.status = some Status.completed

/-- The acquired-reference invariant that actually holds on the code: the
reference carries a non-PENDING status, and it is a live alias of the map
entry under its head SHA unless a FAILURE release (or a completed holder
being dropped) left it dangling — and only then. -/
def AcquiredInv (s : ProviderState) : Prop :=
  ∀ a, s.acquired = some a →
    statusOKForAcquired a ∧
      (lookupSHA s.known a.headSHA = some a ∨
        (lookupSHA s.known a.headSHA = none ∧
          (a.status = some Status.failure ∨ a.status = some Status.completed)))

/-- Identity discipline (spec §3 invariant 3): each stored request's
`headSHA` equals its map key. -/
def KeyDisc (s : ProviderState) : Prop :=
  ∀ kv ∈ s.known, kv.2.headSHA = kv.1

/-- The provider-state invariant maintained by every operation. -/
def Inv (s : ProviderState) : Prop :=
  (s.known.map Prod.fst).Nodup ∧ KeyDisc s ∧ AcquiredInv s

/-- States reachable from the initial empty state by `Acquire`, `Release`
and `Clear` (whether the call succeeded or returned an error, its state
is taken, matching the in-place mutation of the source). -/
inductive Reachable (opts : ProviderOpts) : ProviderState → Prop where
  | init (id : String) (now : Int) : Reachable opts (initialState id now)
  | stepAcquire (s : ProviderState) (req : Request) (now : Int) :
      Reachable opts s → Reachable opts (acquire opts now s req).2
  | stepRelease (s : ProviderState) (req : Request) (now : Int) :
      Reachable opts s → Reachable opts (release opts now s req).2
  | stepClear (s : ProviderState) (now : Int) :
      Reachable opts s → Reachable opts (clear now s)

theorem inv_initialState (id : String) (now : Int) :
    Inv (initialState id now) := by
  refine ⟨by simp [initialState], ?_, ?_⟩
  · intro kv hkv; simp [initialState] at hkv
  · intro a ha; simp [initialState] at ha

theorem inv_clear (now : Int) (s : ProviderState) : Inv (clear now s) := by
  refine ⟨by simp [clear], ?_, ?_⟩
  · intro kv hkv; simp [clear] at hkv
  · intro a ha; simp [clear] at ha

theorem inv_cleanup {s : ProviderState} (h : Inv s) : Inv (cleanup s) := by
  obtain ⟨hnd, hkd, hacq⟩ := h
  unfold cleanup
  cases hc : s.acquired with
  | none => exact ⟨hnd, hkd, hacq⟩
  | some a =>
    dsimp only
    by_cases hst : statusDeref a.status Status.acquired ≠ Status.completed
    · rw [if_pos hst]
      exact ⟨hnd, hkd, hacq⟩
    · rw [if_neg hst]
      by_cases hlen : s.known.length = 1
      · rw [if_pos hlen]
        refine ⟨?_, ?_, ?_⟩
        · exact ((keys_filter_sublist _ _).nodup hnd)
        · intro kv hkv
          exact hkd kv (mem_eraseSHA.mp hkv).1
        · intro a' ha'; simp at ha'
      · rw [if_neg hlen]
        exact ⟨hnd, hkd, hacq⟩

theorem inv_evictTTL {s : ProviderState} (opts : ProviderOpts) (now : Int)
    (h : Inv s) : Inv (evictTTL opts now s) := by
  obtain ⟨hnd, hkd, hacq⟩ := h
  refine ⟨?_, ?_, ?_⟩
  · exact ((keys_filter_sublist _ _).nodup hnd)
  · intro kv hkv
    exact hkd kv (List.mem_filter.mp hkv).1
  · intro a ha
    have hc : s.acquired = some a := ha
    obtain ⟨hok, hl⟩ := hacq a hc
    refine ⟨hok, ?_⟩
    show lookupSHA (s.known.filter _) a.headSHA = some a ∨ _
    rcases hl with hl | ⟨hl, hfc⟩
    · rcases lookupSHA_filter_nodup hnd hl
        (p := fun kv =>
          decide (statusDeref kv.2.status Status.pending = Status.acquired ∨
            statusDeref kv.2.status Status.pending = Status.success ∨
            ¬ (now - kv.2.lastSeenAt > opts.ttl))) with hk | ⟨hk, hp⟩
      · exact Or.inl hk
      · refine Or.inr ⟨hk, ?_⟩
        simp only [decide_eq_false_iff_not, not_or, not_not] at hp
        obtain ⟨hp1, hp2, _⟩ := hp
        rcases hok with h0 | h0 | h0 | h0
        · exact absurd (by simp [statusDeref, h0]) hp1
        · exact absurd (by simp [statusDeref, h0]) hp2
        · exact Or.inl h0
        · exact Or.inr h0
    · exact Or.inr ⟨lookupSHA_filter_none hl, hfc⟩

end Lease

namespace Lease

theorem inv_setKnownMirror {s : ProviderState} {k : String} {e r : Request}
    (h : Inv s) (hl : lookupSHA s.known k = some e)
    (hsha : r.headSHA = e.headSHA)
    (hst : r.status = e.status ∨ statusOKForAcquired r) :
    Inv (setKnownMirror s k r) := by
  obtain ⟨hnd, hkd, hacq⟩ := h
  have hek : e.headSHA = k := hkd (k, e) (lookupSHA_mem hl)
  have hrk : r.headSHA = k := hsha.trans hek
  refine ⟨?_, ?_, ?_⟩
  · show ((updateSHA s.known k r).map Prod.fst).Nodup
    rw [keys_updateSHA]
    exact hnd
  · intro kv hkv
    rcases mem_updateSHA hkv with h0 | h0
    · subst h0; exact hrk
    · exact hkd kv h0
  · intro a' ha'
    simp only [setKnownMirror] at ha'
    cases hc : s.acquired with
    | none => rw [hc] at ha'; simp at ha'
    | some a =>
      rw [hc] at ha'
      have ha2 : (if a.headSHA = k then r else a) = a' := by
        simpa using ha'
      by_cases hak : a.headSHA = k
      · rw [if_pos hak] at ha2
        have hae : a = e := by
          rcases (hacq a hc).2 with h2 | ⟨h2, _⟩
          · rw [hak] at h2; rw [h2] at hl; exact Option.some.inj hl
          · rw [hak, hl] at h2; cases h2
        have hstr : statusOKForAcquired r := by
          rcases hst with h3 | h3
          · unfold statusOKForAcquired
            rw [h3, ← hae]
            exact (hacq a hc).1
          · exact h3
        refine ⟨ha2 ▸ hstr, Or.inl ?_⟩
        show lookupSHA (setKnownMirror s k r).known a'.headSHA = some a'
        rw [← ha2, hrk]
        show lookupSHA (updateSHA s.known k r) k = some r
        exact lookupSHA_updateSHA_self r hl
      · rw [if_neg hak] at ha2
        refine ⟨ha2 ▸ (hacq a hc).1, ?_⟩
        show lookupSHA (updateSHA s.known k r) a'.headSHA = some a' ∨
          (lookupSHA (updateSHA s.known k r) a'.headSHA = none ∧
            (a'.status = some Status.failure ∨ a'.status = some Status.completed))
        rw [← ha2]
        rw [lookupSHA_updateSHA_ne r hak]
        exact (hacq a hc).2

end Lease

namespace Lease

theorem keys_insertSHA_nodup {l : List (String × Request)} {k : String}
    (r : Request) (hnd : (l.map Prod.fst).Nodup)
    (hl : lookupSHA l k = none) :
    ((insertSHA l k r).map Prod.fst).Nodup := by
  rw [keys_insertSHA, List.nodup_append]
  refine ⟨hnd, List.nodup_singleton k, ?_⟩
  intro x hx hx'
  simp at hx'
  subst hx'
  exact (lookupSHA_eq_none_iff.mp hl) hx

theorem inv_setLastUpdated {s : ProviderState} (now : Int) (h : Inv s) :
    Inv { s with lastUpdatedAt := now } := h

theorem inv_insert {s : ProviderState} (opts : ProviderOpts) (now : Int)
    (req : Request) (h : Inv s) :
    Inv (insert opts now s req).2 ∧
      ∀ r, (insert opts now s req).1 = Except.ok (some r) →
        lookupSHA (insert opts now s req).2.known req.headSHA = some r := by
  have h1 : Inv (cleanup s) := inv_cleanup h
  unfold insert
  dsimp only
  cases hl : lookupSHA (cleanup s).known req.headSHA with
  | none =>
    by_cases hac : (cleanup s).acquired.isSome
    · rw [if_pos hac]
      exact ⟨h1, fun r hr => by cases hr⟩
    · rw [if_neg hac]
      by_cases hstat : req.status.isSome ∧
          statusDeref req.status Status.pending ≠ Status.pending
      · rw [if_pos hstat]
        exact ⟨h1, fun r hr => by cases hr⟩
      · rw [if_neg hstat]
        have hacn : (cleanup s).acquired = none :=
          Option.not_isSome_iff_eq_none.mp hac
        obtain ⟨hnd1, hkd1, _⟩ := h1
        have h2 : Inv { cleanup s with
            known := insertSHA (cleanup s).known req.headSHA
              { req with lastSeenAt := now, status := some Status.pending },
            lastUpdatedAt := now } := by
          refine ⟨?_, ?_, ?_⟩
          · exact keys_insertSHA_nodup _ hnd1 hl
          · intro kv hkv
            rcases mem_insertSHA.mp hkv with h0 | h0
            · exact hkd1 kv h0
            · subst h0; rfl
          · intro a ha
            rw [show ({ cleanup s with
                known := insertSHA (cleanup s).known req.headSHA
                  { req with lastSeenAt := now, status := some Status.pending },
                lastUpdatedAt := now } : ProviderState).acquired
              = (cleanup s).acquired from rfl, hacn] at ha
            cases ha
        refine ⟨inv_evictTTL opts now h2, ?_⟩
        intro r hr
        have := Except.ok.inj hr
        exact this
  | some existing =>
    dsimp only
    have hsha2 : (if (if existing.priority ≠ req.priority then
          { existing with priority := req.priority } else existing).headRef
            ≠ req.headRef then
          { (if existing.priority ≠ req.priority then
              { existing with priority := req.priority } else existing)
            with headRef := req.headRef }
        else (if existing.priority ≠ req.priority then
          { existing with priority := req.priority } else existing)).headSHA
        = existing.headSHA := by
      split <;> split <;> rfl
    have hst2 : (if (if existing.priority ≠ req.priority then
          { existing with priority := req.priority } else existing).headRef
            ≠ req.headRef then
          { (if existing.priority ≠ req.priority then
              { existing with priority := req.priority } else existing)
            with headRef := req.headRef }
        else (if existing.priority ≠ req.priority then
          { existing with priority := req.priority } else existing)).status
        = existing.status := by
      split <;> split <;> rfl
    by_cases hmm : statusDeref existing.status Status.pending ≠
        statusDeref req.status Status.pending
    · by_cases hal : statusDeref existing.status Status.pending = Status.acquired ∧
          (statusDeref req.status Status.pending = Status.success ∨
            statusDeref req.status Status.pending = Status.failure)
      · have hcond : statusDeref existing.status Status.pending ≠
              statusDeref req.status Status.pending ∧
            (statusDeref existing.status Status.pending = Status.acquired ∧
              (statusDeref req.status Status.pending = Status.success ∨
                statusDeref req.status Status.pending = Status.failure)) :=
          ⟨hmm, hal⟩
        rw [if_pos hcond]
        refine ⟨inv_evictTTL opts now
          (inv_setLastUpdated now (inv_setKnownMirror h1 hl ?_ ?_)), ?_⟩
        · exact hsha2
        · right
          unfold statusOKForAcquired
          rcases hal.2 with h0 | h0
          · right; left
            show some (statusDeref req.status Status.pending) = some Status.success
            rw [h0]
          · right; right; left
            show some (statusDeref req.status Status.pending) = some Status.failure
            rw [h0]
        · intro r hr
          exact Except.ok.inj hr
      · have hcond : ¬ (statusDeref existing.status Status.pending ≠
              statusDeref req.status Status.pending ∧
            (statusDeref existing.status Status.pending = Status.acquired ∧
              (statusDeref req.status Status.pending = Status.success ∨
                statusDeref req.status Status.pending = Status.failure))) :=
          fun hc => hal hc.2
        rw [if_neg hcond, if_pos hmm]
        refine ⟨inv_setKnownMirror h1 hl ?_ ?_, ?_⟩
        · exact hsha2
        · exact Or.inl hst2
        · intro r hr
          exact absurd hr (by simp)
    · have hcond : ¬ (statusDeref existing.status Status.pending ≠
            statusDeref req.status Status.pending ∧
          (statusDeref existing.status Status.pending = Status.acquired ∧
            (statusDeref req.status Status.pending = Status.success ∨
              statusDeref req.status Status.pending = Status.failure))) :=
        fun hc => hmm hc.1
      rw [if_neg hcond, if_neg hmm]
      by_cases hch : (decide ¬ existing.priority = req.priority) = true ∨
          (decide ¬ (if existing.priority ≠ req.priority then
              { existing with priority := req.priority } else existing).headRef
            = req.headRef) = true
      · rw [if_pos hch]
        refine ⟨inv_evictTTL opts now
          (inv_setLastUpdated now (inv_setKnownMirror h1 hl ?_ ?_)), ?_⟩
        · exact hsha2
        · exact Or.inl hst2
        · intro r hr
          exact Except.ok.inj hr
      · rw [if_neg hch]
        refine ⟨inv_evictTTL opts now (inv_setKnownMirror h1 hl ?_ ?_), ?_⟩
        · exact hsha2
        · exact Or.inl hst2
        · intro r hr
          exact Except.ok.inj hr

end Lease

namespace Lease

theorem statusDeref_acquired_eq {x : Option Status} {st : Status}
    (hne : st ≠ Status.acquired) (h : statusDeref x Status.acquired = st) :
    x = some st := by
  cases x with
  | none => exact absurd h.symm (by simpa [statusDeref] using hne)
  | some v => simpa [statusDeref] using congrArg some h

theorem inv_electRequest {s : ProviderState} {key : String} {req : Request}
    (h : Inv s) (hl : lookupSHA s.known key = some req) :
    Inv (electRequest s key req).2 := by
  obtain ⟨hnd, hkd, hacq⟩ := h
  have hrk : req.headSHA = key := hkd (key, req) (lookupSHA_mem hl)
  unfold electRequest
  by_cases hp : req.priority = maxPriority s
  · rw [if_pos hp]
    refine ⟨?_, ?_, ?_⟩
    · show ((updateSHA s.known key _).map Prod.fst).Nodup
      rw [keys_updateSHA]; exact hnd
    · intro kv hkv
      rcases mem_updateSHA hkv with h0 | h0
      · subst h0; exact hrk
      · exact hkd kv h0
    · intro a' ha'
      have ha2 : a' = { req with status := some Status.acquired } := by
        simpa using ha'.symm
      subst ha2
      refine ⟨Or.inl rfl, Or.inl ?_⟩
      show lookupSHA (updateSHA s.known key _) req.headSHA = _
      rw [hrk]
      exact lookupSHA_updateSHA_self _ hl
  · rw [if_neg hp]
    exact ⟨hnd, hkd, hacq⟩

theorem inv_evaluateRequest {s : ProviderState} (opts : ProviderOpts)
    (now : Int) {key : String} {req : Request}
    (h : Inv s) (hl : lookupSHA s.known key = some req) :
    Inv (evaluateRequest opts now s key req).2 := by
  unfold evaluateRequest
  cases hc : s.acquired with
  | some a =>
    dsimp only
    by_cases hf : ¬ (statusDeref a.status Status.acquired = Status.failure)
    · rw [if_pos hf]; exact h
    · rw [if_neg hf]; exact inv_electRequest h hl
  | none =>
    dsimp only
    by_cases hw : ¬ (now - s.lastUpdatedAt ≥ opts.stabilizeDuration) ∧
        ¬ ((s.known.length : Int) ≥ opts.expectedRequestCount)
    · rw [if_pos hw]; exact h
    · rw [if_neg hw]; exact inv_electRequest h hl

theorem inv_acquire {s : ProviderState} (opts : ProviderOpts) (now : Int)
    (req : Request) (h : Inv s) : Inv (acquire opts now s req).2 := by
  obtain ⟨hins, hok⟩ := inv_insert opts now req h
  unfold acquire
  cases hi : insert opts now s req with
  | mk res s' =>
    rw [hi] at hins hok
    cases res with
    | error e => exact hins
    | ok o =>
      cases o with
      | none => exact hins
      | some r =>
        dsimp only
        have hlr : lookupSHA s'.known req.headSHA = some r := hok r rfl
        cases ha : s'.acquired with
        | none =>
          dsimp only
          have := inv_evaluateRequest opts now hins hlr
          cases he : evaluateRequest opts now s' req.headSHA r with
          | mk res2 s2 => rw [he] at this; exact this
        | some a =>
          dsimp only
          by_cases hco : statusDeref a.status Status.pending = Status.completed
          · rw [if_pos hco]
            obtain ⟨hnd', hkd', hacq'⟩ := hins
            refine ⟨?_, ?_, ?_⟩
            · show (((eraseSHA (updateSHA s'.known req.headSHA _) req.headSHA)).map
                Prod.fst).Nodup
              refine (keys_filter_sublist _ _).nodup ?_
              rw [keys_updateSHA]; exact hnd'
            · intro kv hkv
              rcases mem_updateSHA (mem_eraseSHA.mp hkv).1 with h0 | h0
              · subst h0
                exact hkd' (req.headSHA, r) (lookupSHA_mem hlr)
              · exact hkd' kv h0
            · intro a' ha'
              by_cases hak : a.headSHA = req.headSHA
              · rw [if_pos hak] at ha'
                have ha2 : a' = { r with status := some Status.completed } := by
                  simpa using ha'.symm
                subst ha2
                refine ⟨Or.inr (Or.inr (Or.inr rfl)), Or.inr ⟨?_, Or.inr rfl⟩⟩
                show lookupSHA (eraseSHA _ req.headSHA) _ = none
                have hrk : r.headSHA = req.headSHA :=
                  hkd' (req.headSHA, r) (lookupSHA_mem hlr)
                rw [show ({ r with status := some Status.completed } :
                  Request).headSHA = r.headSHA from rfl, hrk]
                exact lookupSHA_eraseSHA_self _ _
              · rw [if_neg hak] at ha'
                have ha2 : a' = a := by simpa using ha'.symm
                subst ha2
                refine ⟨(hacq' a' ha).1, ?_⟩
                have heq : lookupSHA (eraseSHA (updateSHA s'.known req.headSHA
                      { r with status := some Status.completed }) req.headSHA)
                      a'.headSHA
                    = lookupSHA s'.known a'.headSHA := by
                  rw [lookupSHA_eraseSHA_ne hak, lookupSHA_updateSHA_ne _ hak]
                show lookupSHA (eraseSHA (updateSHA s'.known req.headSHA _)
                    req.headSHA) a'.headSHA = some a' ∨
                  (lookupSHA (eraseSHA (updateSHA s'.known req.headSHA _)
                    req.headSHA) a'.headSHA = none ∧
                    (a'.status = some Status.failure ∨
                      a'.status = some Status.completed))
                rw [heq]
                exact (hacq' a' ha).2
          · rw [if_neg hco]
            have := inv_evaluateRequest opts now hins hlr
            cases he : evaluateRequest opts now s' req.headSHA r with
            | mk res2 s2 => rw [he] at this; exact this

end Lease

namespace Lease

theorem inv_release {s : ProviderState} (opts : ProviderOpts) (now : Int)
    (req : Request) (h : Inv s) : Inv (release opts now s req).2 := by
  unfold release
  cases hc : s.acquired with
  | none => exact h
  | some a =>
    dsimp only
    by_cases hne : a.headSHA ≠ req.headSHA
    · rw [if_pos hne]; exact h
    · rw [if_neg hne]
      obtain ⟨hins, hok⟩ := inv_insert opts now req h
      cases hi : insert opts now s req with
      | mk res s' =>
        rw [hi] at hins hok
        cases res with
        | error e => exact hins
        | ok o =>
          cases o with
          | none => exact hins
          | some r =>
            dsimp only
            have hlr : lookupSHA s'.known req.headSHA = some r := hok r rfl
            obtain ⟨hnd', hkd', hacq'⟩ := hins
            by_cases hsu : statusDeref r.status Status.acquired = Status.success
            · rw [if_pos hsu]
              exact inv_setKnownMirror ⟨hnd', hkd', hacq'⟩ hlr rfl
                (Or.inr (Or.inr (Or.inr (Or.inr rfl))))
            · rw [if_neg hsu]
              by_cases hfa : statusDeref r.status Status.acquired = Status.failure
              · rw [if_pos hfa]
                have hrst : r.status = some Status.failure :=
                  statusDeref_acquired_eq (by simp) hfa
                have hs'' : Inv { s' with known := eraseSHA s'.known req.headSHA } := by
                  refine ⟨?_, ?_, ?_⟩
                  · exact (keys_filter_sublist _ _).nodup hnd'
                  · intro kv hkv
                    exact hkd' kv (mem_eraseSHA.mp hkv).1
                  · intro a' ha'
                    have ha2 : s'.acquired = some a' := ha'
                    refine ⟨(hacq' a' ha2).1, ?_⟩
                    by_cases hak : a'.headSHA = req.headSHA
                    · right
                      constructor
                      · show lookupSHA (eraseSHA s'.known req.headSHA) _ = none
                        rw [hak]
                        exact lookupSHA_eraseSHA_self _ _
                      · rcases (hacq' a' ha2).2 with h2 | ⟨_, h3⟩
                        · rw [hak, hlr] at h2
                          have : a' = r := Option.some.inj h2.symm
                          subst this
                          exact Or.inl hrst
                        · exact h3
                    · show lookupSHA (eraseSHA s'.known req.headSHA) a'.headSHA
                        = some a' ∨
                        (lookupSHA (eraseSHA s'.known req.headSHA) a'.headSHA
                          = none ∧
                          (a'.status = some Status.failure ∨
                            a'.status = some Status.completed))
                      rw [lookupSHA_eraseSHA_ne hak]
                      exact (hacq' a' ha2).2
                by_cases hlen : ({ s' with known := eraseSHA s'.known req.headSHA } :
                    ProviderState).known.length = 0
                · rw [if_pos hlen]
                  obtain ⟨hnd2, hkd2, _⟩ := hs''
                  exact ⟨hnd2, hkd2, fun a' ha' => by cases ha'⟩
                · rw [if_neg hlen]
                  exact hs''
              · rw [if_neg hfa]
                exact ⟨hnd', hkd', hacq'⟩

/-- Every state reachable by `Acquire` / `Release` / `Clear` satisfies the
provider invariant. -/
theorem inv_reachable {opts : ProviderOpts} {s : ProviderState}
    (h : Reachable opts s) : Inv s := by
  induction h with
  | init id now => exact inv_initialState id now
  | stepAcquire s req now _ ih => exact inv_acquire opts now req ih
  | stepRelease s req now _ ih => exact inv_release opts now req ih
  | stepClear s now _ ih => exact inv_clear now s

end Lease

namespace Lease

/-- Configuration of spec §8 scenarios 1, 3 and 4: 60 s stabilisation,
3600 s TTL, quorum of three. -/
def opts3 : ProviderOpts :=
  { stabilizeDuration := 60, ttl := 3600, expectedRequestCount := 3 }

/-- A client request carrying no status assertion. -/
def req0 (sha : String) (p : Int) : Request :=
  { headSHA := sha, headRef := "", priority := p, status := none,
    lastSeenAt := 0 }

/-- A client request asserting a status. -/
def reqSt (sha : String) (p : Int) (st : Status) : Request :=
  { headSHA := sha, headRef := "", priority := p, status := some st,
    lastSeenAt := 0 }

/-- Scenario state: A(p=1), B(p=2), C(p=3) acquired by three `Acquire`
calls at a fixed clock; C wins by quorum. -/
def sABC : ProviderState :=
  (acquire opts3 0 ((acquire opts3 0 ((acquire opts3 0 (initialState "q" 0)
    (req0 "A" 1)).2) (req0 "B" 2)).2) (req0 "C" 3)).2

/-- Scenario state: the holder C released with FAILURE while A and B
remain (spec §4.6 step 2, §8 scenario 3). -/
def sFail : ProviderState :=
  (release opts3 0 sABC (reqSt "C" 3 Status.failure)).2

end Lease

namespace Lease

theorem mem_updateSHA_of_ne {l : List (String × Request)} {k : String}
    {r : Request} {kv : String × Request}
    (hmem : kv ∈ l) (hne : kv.1 ≠ k) : kv ∈ updateSHA l k r := by
  induction l with
  | nil => simp at hmem
  | cons kv' t ih =>
    obtain ⟨k0, v0⟩ := kv'
    by_cases hk0 : k0 = k
    · subst hk0
      simp only [updateSHA, if_pos rfl]
      rcases List.mem_cons.mp hmem with h0 | h0
      · exfalso; apply hne; rw [h0]
      · exact List.mem_cons_of_mem _ h0
    · simp only [updateSHA, if_neg hk0]
      rcases List.mem_cons.mp hmem with h0 | h0
      · rw [h0]; exact List.mem_cons_self _ _
      · exact List.mem_cons_of_mem _ (ih h0)

/-- The acquired request of the scenario states. -/
def cAcq : Request :=
  { headSHA := "C", headRef := "", priority := 3,
    status := some Status.acquired, lastSeenAt := 0 }

end Lease

namespace Lease

/-- C1 — counterexample: after Acquire(A,1), Acquire(B,2), Acquire(C,3)
(quorum of three, C acquired) and Release(C, FAILURE), the provider's
`acquired` reference is still present but its head SHA is no longer a key
of `known`, refuting the claimed invariant that a present `acquired`
always points into `known`. -/
theorem claim1_counterexample :
    ∃ a, sFail.acquired = some a ∧ lookupSHA sFail.known a.headSHA = none := by
  refine ⟨Request.mk "C" "" 3 (some Status.failure) 0, by decide, by decide⟩

/-- C1 (amended): for every reachable state, if `acquired` is present its
status is one of ACQUIRED, SUCCESS, FAILURE, COMPLETED; and whenever that
status is ACQUIRED or SUCCESS, its head SHA is a key of `known` mapping to
the very same request.  (A FAILURE release — and a completed holder being
dropped by the post-acquire shortcut — leaves a dangling reference, so
membership cannot be required for FAILURE/COMPLETED.) -/
theorem claim1_acquired_invariant (opts : ProviderOpts) (s : ProviderState)
    (h : Reachable opts s) :
    ∀ a, s.acquired = some a →
      (a.status = some Status.acquired ∨ a.status = some Status.success ∨
        a.status = some Status.failure ∨ a.status = some Status.completed) ∧
      ((a.status = some Status.acquired ∨ a.status = some Status.success) →
        lookupSHA s.known a.headSHA = some a) := by
  intro a ha
  obtain ⟨_, _, hacq⟩ := inv_reachable h
  obtain ⟨hok, hl⟩ := hacq a ha
  refine ⟨hok, ?_⟩
  intro hst
  rcases hl with hl | ⟨_, hfc⟩
  · exact hl
  · exfalso
    rcases hst with h0 | h0 <;> rcases hfc with h1 | h1 <;>
      rw [h0] at h1 <;> exact Status.noConfusion (Option.some.inj h1)

/-- C1 witness: the invariant instantiated at the concrete reachable
state A(1), B(2), C(3, acquired). -/
theorem claim1_acquired_invariant_witness :
    (cAcq.status = some Status.acquired ∨ cAcq.status = some Status.success ∨
      cAcq.status = some Status.failure ∨ cAcq.status = some Status.completed) ∧
    ((cAcq.status = some Status.acquired ∨ cAcq.status = some Status.success) →
      lookupSHA sABC.known cAcq.headSHA = some cAcq) :=
  claim1_acquired_invariant opts3 sABC
    (Reachable.stepAcquire _ (req0 "C" 3) 0
      (Reachable.stepAcquire _ (req0 "B" 2) 0
        (Reachable.stepAcquire _ (req0 "A" 1) 0
          (Reachable.init "q" 0)))) cAcq (by decide)

end Lease

namespace Lease

/-- C3 — counterexample: in the concrete run A(1), B(2), C(3) acquired,
Release(C, FAILURE) does remove C from `known` and leaves A and B
PENDING, but it does **not** clear `acquired`: the reference is still
present (pointing at the removed FAILURE request), refuting “clears
`acquired` (leaves it absent)”. -/
theorem claim3_counterexample :
    sFail.acquired ≠ none ∧
    lookupSHA sFail.known "C" = none ∧
    (lookupSHA sFail.known "A").map (fun r => r.status)
      = some (some Status.pending) ∧
    (lookupSHA sFail.known "B").map (fun r => r.status)
      = some (some Status.pending) := by decide

/-- C3 (amended): when the holder releases with FAILURE and at least one
other request remains, the holder is removed from `known` and the
siblings are left untouched (PENDING stays PENDING); `acquired` is *not*
cleared — it keeps referencing the removed request, now carrying status
FAILURE (it is cleared only when `known` became empty).  Hypotheses: the
call is made by the live holder re-sending its own priority and head ref,
the TTL is non-negative and no request is stale (so eviction does not
interfere). -/
theorem claim3_release_failure (opts : ProviderOpts) (now : Int)
    (s : ProviderState) (req a : Request)
    (hacq : s.acquired = some a)
    (hsha : a.headSHA = req.headSHA)
    (hlook : lookupSHA s.known req.headSHA = some a)
    (hst : a.status = some Status.acquired)
    (hreq : req.status = some Status.failure)
    (hpri : a.priority = req.priority)
    (href : a.headRef = req.headRef)
    (httl : 0 ≤ opts.ttl)
    (hfresh : ∀ kv ∈ s.known, ¬ (now - kv.2.lastSeenAt > opts.ttl))
    (hsib : ∃ kv ∈ s.known, kv.1 ≠ req.headSHA) :
    ∃ a', (release opts now s req).1 = Except.ok a' ∧
      a'.status = some Status.failure ∧ a'.headSHA = req.headSHA ∧
      (release opts now s req).2.acquired = some a' ∧
      lookupSHA (release opts now s req).2.known req.headSHA = none ∧
      ∀ kv ∈ s.known, kv.1 ≠ req.headSHA →
        kv ∈ (release opts now s req).2.known := by
  have hne : ¬ (a.headSHA ≠ req.headSHA) := fun hh => hh hsha
  have hcl : cleanup s = s := by
    unfold cleanup
    rw [hacq]
    dsimp only
    rw [if_pos (by rw [hst]; decide)]
  have hp1 : ¬ (a.priority ≠ req.priority) := fun hh => hh hpri
  have hp2 : ¬ (a.headRef ≠ req.headRef) := fun hh => hh href
  have hmain : insert opts now s req =
      (Except.ok (some (Request.mk a.headSHA a.headRef a.priority
          (some Status.failure) now)),
        evictTTL opts now
          { setKnownMirror s req.headSHA (Request.mk a.headSHA a.headRef
              a.priority (some Status.failure) now) with
            lastUpdatedAt := now }) := by
    unfold insert
    dsimp only
    rw [hcl, hlook]
    dsimp only
    rw [if_neg hp1, if_neg hp2, hst, hreq]
    simp only [statusDeref, Option.getD_some]
    simp only [or_true, and_true, true_and, and_self]
    have hcnd : Status.acquired ≠ Status.failure := by decide
    rw [if_pos hcnd]
    have hupd : lookupSHA (updateSHA s.known req.headSHA
        (Request.mk a.headSHA a.headRef a.priority (some Status.failure) now))
        req.headSHA = some (Request.mk a.headSHA a.headRef a.priority
          (some Status.failure) now) :=
      lookupSHA_updateSHA_self _ hlook
    have hkeep : lookupSHA ((updateSHA s.known req.headSHA
        (Request.mk a.headSHA a.headRef a.priority (some Status.failure)
          now)).filter (fun kv =>
            decide (statusDeref kv.2.status Status.pending = Status.acquired ∨
              statusDeref kv.2.status Status.pending = Status.success ∨
              ¬ (now - kv.2.lastSeenAt > opts.ttl)))) req.headSHA
        = some (Request.mk a.headSHA a.headRef a.priority
            (some Status.failure) now) := by
      refine lookupSHA_filter_some hupd ?_
      refine decide_eq_true ?_
      refine Or.inr (Or.inr ?_)
      show ¬ (now - now > opts.ttl)
      omega
    show (Except.ok (lookupSHA _ req.headSHA), _) = _
    rw [Prod.mk.injEq]
    constructor
    · rw [show (evictTTL opts now
          { setKnownMirror s req.headSHA (Request.mk a.headSHA a.headRef
              a.priority (some Status.failure) now) with
            lastUpdatedAt := now }).known
          = (updateSHA s.known req.headSHA (Request.mk a.headSHA a.headRef
              a.priority (some Status.failure) now)).filter (fun kv =>
                decide (statusDeref kv.2.status Status.pending = Status.acquired ∨
                  statusDeref kv.2.status Status.pending = Status.success ∨
                  ¬ (now - kv.2.lastSeenAt > opts.ttl))) from rfl]
      rw [hkeep]
    · rfl
  obtain ⟨kv0, hkv0, hkv0ne⟩ := hsib
  have hkv0' : kv0 ∈ (release opts now s req).2.known ∧
      (release opts now s req).2.acquired = some (Request.mk a.headSHA
        a.headRef a.priority (some Status.failure) now) ∧
      (release opts now s req).1 = Except.ok (Request.mk a.headSHA a.headRef
        a.priority (some Status.failure) now) ∧
      lookupSHA (release opts now s req).2.known req.headSHA = none ∧
      ∀ kv ∈ s.known, kv.1 ≠ req.headSHA →
        kv ∈ (release opts now s req).2.known := by
    have hmem4 : ∀ kv ∈ s.known, kv.1 ≠ req.headSHA →
        kv ∈ (evictTTL opts now
          { setKnownMirror s req.headSHA (Request.mk a.headSHA a.headRef
              a.priority (some Status.failure) now) with
            lastUpdatedAt := now }).known := by
      intro kv hkv hkne
      show kv ∈ (updateSHA s.known req.headSHA _).filter _
      refine List.mem_filter.mpr ⟨mem_updateSHA_of_ne hkv hkne, ?_⟩
      refine decide_eq_true ?_
      exact Or.inr (Or.inr (hfresh kv hkv))
    unfold release
    rw [hacq]
    dsimp only
    rw [if_neg hne, hmain]
    dsimp only
    simp only [statusDeref, Option.getD_some]
    have hns : ¬ (Status.failure = Status.success) := by decide
    rw [if_neg hns, if_pos (trivial : True)]
    have hlen : ¬ ((eraseSHA (evictTTL opts now
        { setKnownMirror s req.headSHA (Request.mk a.headSHA a.headRef
            a.priority (some Status.failure) now) with
          lastUpdatedAt := now }).known req.headSHA).length = 0) := by
      intro h0
      rw [List.length_eq_zero] at h0
      have hm : kv0 ∈ eraseSHA (evictTTL opts now
          { setKnownMirror s req.headSHA (Request.mk a.headSHA a.headRef
              a.priority (some Status.failure) now) with
            lastUpdatedAt := now }).known req.headSHA :=
        mem_eraseSHA.mpr ⟨hmem4 kv0 hkv0 hkv0ne, hkv0ne⟩
      rw [h0] at hm
      cases hm
    rw [if_neg hlen]
    refine ⟨?_, ?_, rfl, ?_, ?_⟩
    · exact mem_eraseSHA.mpr ⟨hmem4 kv0 hkv0 hkv0ne, hkv0ne⟩
    · show ((setKnownMirror s req.headSHA _).acquired : Option Request) = _
      show (s.acquired.map _ : Option Request) = _
      rw [hacq]
      simp only [Option.map_some']
      rw [if_pos hsha]
    · exact lookupSHA_eraseSHA_self _ _
    · intro kv hkv hkne
      exact mem_eraseSHA.mpr ⟨hmem4 kv hkv hkne, hkne⟩
  exact ⟨Request.mk a.headSHA a.headRef a.priority (some Status.failure) now,
    hkv0'.2.2.1, rfl, hsha, hkv0'.2.1, hkv0'.2.2.2.1, hkv0'.2.2.2.2⟩

/-- C3 witness: the amended release law instantiated on the concrete
state A(1), B(2), C(3, acquired). -/
theorem claim3_release_failure_witness :
    ∃ a', (release opts3 0 sABC (reqSt "C" 3 Status.failure)).1
        = Except.ok a' ∧
      a'.status = some Status.failure ∧
      a'.headSHA = (reqSt "C" 3 Status.failure).headSHA ∧
      (release opts3 0 sABC (reqSt "C" 3 Status.failure)).2.acquired
        = some a' ∧
      lookupSHA (release opts3 0 sABC (reqSt "C" 3 Status.failure)).2.known
        (reqSt "C" 3 Status.failure).headSHA = none ∧
      ∀ kv ∈ sABC.known, kv.1 ≠ (reqSt "C" 3 Status.failure).headSHA →
        kv ∈ (release opts3 0 sABC (reqSt "C" 3 Status.failure)).2.known :=
  claim3_release_failure opts3 0 sABC (reqSt "C" 3 Status.failure) cAcq
    (by decide) (by decide) (by decide) (by decide) (by decide) (by decide)
    (by decide) (by decide) (by decide) (by decide)

end Lease

namespace Lease

/-- C5: the TTL eviction step keeps exactly the requests whose
dereferenced status is ACQUIRED or SUCCESS, or whose idle time does not
exceed the TTL — equivalently it deletes exactly the PENDING / FAILURE /
COMPLETED requests idle for more than the TTL, and a request whose status
is ACQUIRED or SUCCESS is never deleted. -/
theorem claim5_evictTTL_exact (opts : ProviderOpts) (now : Int)
    (s : ProviderState) (k : String) (v : Request) :
    (k, v) ∈ (evictTTL opts now s).known ↔
      ((k, v) ∈ s.known ∧
        (statusDeref v.status Status.pending = Status.acquired ∨
         statusDeref v.status Status.pending = Status.success ∨
         ¬ (now - v.lastSeenAt > opts.ttl))) := by
  simp [evictTTL, List.mem_filter]

/-- C10: whenever the internal `acquired` reference still names a request
with status FAILURE (as after the holder released with FAILURE while
siblings remained, which leaves the reference dangling), every Acquire
whose head SHA is not a key of `known` fails with "lease already
acquired" and leaves the whole state unchanged. -/
theorem claim10_new_rejected_while_dangling (opts : ProviderOpts)
    (now : Int) (s : ProviderState) (req a : Request)
    (hacq : s.acquired = some a)
    (hst : a.status = some Status.failure)
    (hnew : lookupSHA s.known req.headSHA = none) :
    acquire opts now s req = (Except.error "lease already acquired", s) := by
  have hcl : cleanup s = s := by
    unfold cleanup
    rw [hacq]
    dsimp only
    rw [if_pos (by rw [hst]; decide)]
  have hsome : s.acquired.isSome = true := by rw [hacq]; rfl
  unfold acquire insert
  dsimp only
  rw [hcl, hnew]
  dsimp only
  rw [if_pos hsome]

/-- C10 witness: at the concrete dangling state reached by
Release(C, FAILURE) after A(1), B(2), C(3) acquired, a fresh request D
is rejected and the state is untouched. -/
theorem claim10_new_rejected_while_dangling_witness :
    acquire opts3 0 sFail (req0 "D" 4)
      = (Except.error "lease already acquired", sFail) :=
  claim10_new_rejected_while_dangling opts3 0 sFail (req0 "D" 4)
    (Request.mk "C" "" 3 (some Status.failure) 0)
    (by decide) (by decide) (by decide)

end Lease

namespace Lease

instance : DecidableEq (Except String Request) := fun a b =>
  match a, b with
  | Except.ok x, Except.ok y =>
    if h : x = y then Decidable.isTrue (by rw [h])
    else Decidable.isFalse (by intro hc; cases hc; exact h rfl)
  | Except.error x, Except.error y =>
    if h : x = y then Decidable.isTrue (by rw [h])
    else Decidable.isFalse (by intro hc; cases hc; exact h rfl)
  | Except.ok _, Except.error _ => Decidable.isFalse (by intro hc; cases hc)
  | Except.error _, Except.ok _ => Decidable.isFalse (by intro hc; cases hc)

/-- The six calls of spec §8 scenario 1 at a fixed clock. -/
def c6r1 := acquire opts3 0 (initialState "q" 0) (req0 "A" 1)
def c6r2 := acquire opts3 0 c6r1.2 (req0 "B" 2)
def c6r3 := acquire opts3 0 c6r2.2 (req0 "C" 3)
def c6r4 := release opts3 0 c6r3.2 (reqSt "C" 3 Status.success)
def c6r5 := acquire opts3 0 c6r4.2 (req0 "A" 1)
def c6r6 := acquire opts3 0 c6r5.2 (req0 "B" 2)

/-- C6 — counterexample: after the six calls of the scenario the state is
**not** empty: the released request C is still in `known` (with status
COMPLETED) and `acquired` still references it.  The empty state only
arises at the start of the *next* call, in its cleanup step. -/
theorem claim6_counterexample :
    ¬ (c6r6.2.known = [] ∧ c6r6.2.acquired = none) := by decide

/-- C6 (amended): the six calls return PENDING, PENDING, ACQUIRED,
COMPLETED, COMPLETED, COMPLETED as claimed, but the state afterwards
keeps the completed holder: `known = {C ↦ completed}` and `acquired`
references it; the provider empties it during the next operation's
cleanup (shown here by one further Acquire succeeding for a new D). -/
theorem claim6_scenario :
    c6r1.1 = Except.ok (Request.mk "A" "" 1 (some Status.pending) 0) ∧
    c6r2.1 = Except.ok (Request.mk "B" "" 2 (some Status.pending) 0) ∧
    c6r3.1 = Except.ok (Request.mk "C" "" 3 (some Status.acquired) 0) ∧
    c6r4.1 = Except.ok (Request.mk "C" "" 3 (some Status.completed) 0) ∧
    c6r5.1 = Except.ok (Request.mk "A" "" 1 (some Status.completed) 0) ∧
    c6r6.1 = Except.ok (Request.mk "B" "" 2 (some Status.completed) 0) ∧
    c6r6.2.known = [("C", Request.mk "C" "" 3 (some Status.completed) 0)] ∧
    c6r6.2.acquired = some (Request.mk "C" "" 3 (some Status.completed) 0) ∧
    (acquire opts3 0 c6r6.2 (req0 "D" 4)).1
      = Except.ok (Request.mk "D" "" 4 (some Status.pending) 0) := by decide

/-- The C7 counterexample state: a single PENDING request A with
priority 1. -/
def c7s : ProviderState :=
  (acquire opts3 0 (initialState "q" 0) (req0 "A" 1)).2

/-- The C7 counterexample call: A re-acquires with a new priority and an
asserted SUCCESS status (an illegal transition from PENDING). -/
def c7bad := acquire opts3 0 c7s (Request.mk "A" "" 2 (some Status.success) 0)

/-- C7 — counterexample: the illegal PENDING→SUCCESS assertion is
rejected, but the state after the call does **not** equal the state
before it: the priority update (1 → 2) applied before the status check
persists in `known`. -/
theorem claim7_counterexample :
    c7bad.1 = Except.error "status missmatch" ∧
    c7bad.2 ≠ c7s ∧
    (lookupSHA c7bad.2.known "A").map (fun r => r.priority) = some 2 ∧
    (lookupSHA c7s.known "A").map (fun r => r.priority) = some 1 := by decide

end Lease

namespace Lease

/-- C7 (amended): every call asserting a transition outside the allowlist
returns an error without changing any request's status, without electing
a winner and without touching the key set — but it is *not* a no-op: for
an existing request, the priority and head-ref updates applied before the
status check persist (and the cleanup at the start of the call may drop a
completed leftover).  The four rejected shapes: a new request asserting a
non-PENDING status; an existing request asserting a status other than its
own or an allowed ACQUIRED→SUCCESS/FAILURE transition; Release with no
lease acquired; Release from a non-holder. -/
theorem claim7_rejected_transitions (opts : ProviderOpts) (now : Int)
    (s : ProviderState) (req : Request) (hinv : Inv s) :
    (∀ st, req.status = some st → st ≠ Status.pending →
      lookupSHA (cleanup s).known req.headSHA = none →
      (cleanup s).acquired = none →
      acquire opts now s req
        = (Except.error "invalid status for new LeaseRequest", cleanup s)) ∧
    (∀ e, lookupSHA (cleanup s).known req.headSHA = some e →
      statusDeref e.status Status.pending ≠ statusDeref req.status Status.pending →
      ¬ (statusDeref e.status Status.pending = Status.acquired ∧
         (statusDeref req.status Status.pending = Status.success ∨
          statusDeref req.status Status.pending = Status.failure)) →
      (acquire opts now s req).1 = Except.error "status missmatch" ∧
      (∀ k, (lookupSHA (acquire opts now s req).2.known k).map (fun r => r.status)
          = (lookupSHA (cleanup s).known k).map (fun r => r.status)) ∧
      ((acquire opts now s req).2.acquired.map (fun r => r.status)
          = (cleanup s).acquired.map (fun r => r.status)) ∧
      (lookupSHA (acquire opts now s req).2.known req.headSHA).map
          (fun r => (r.priority, r.headRef))
        = some (req.priority, req.headRef)) ∧
    (s.acquired = none →
      release opts now s req = (Except.error "no lease acquired", s)) ∧
    (∀ a, s.acquired = some a → a.headSHA ≠ req.headSHA →
      release opts now s req
        = (Except.error "commit does not hold the lease", s)) := by
  refine ⟨?_, ?_, ?_, ?_⟩
  · intro st hst hne hl hacq
    have hc1 : ¬ ((cleanup s).acquired.isSome = true) := by
      rw [hacq]; simp
    have hc2 : req.status.isSome ∧
        statusDeref req.status Status.pending ≠ Status.pending := by
      constructor
      · rw [hst]; rfl
      · rw [hst]
        simpa [statusDeref] using hne
    unfold acquire insert
    dsimp only
    rw [hl]
    dsimp only
    rw [if_neg hc1, if_pos hc2]
  · intro e hl hmm hna
    have he1 : (if e.priority ≠ req.priority then
        { e with priority := req.priority } else e)
        = Request.mk e.headSHA e.headRef req.priority e.status e.lastSeenAt := by
      split
      · rfl
      · rename_i hp
        rw [not_not] at hp
        cases e
        dsimp only at hp ⊢
        rw [hp]
    have hcne : ¬ (statusDeref e.status Status.pending ≠
        statusDeref req.status Status.pending ∧
        (statusDeref e.status Status.pending = Status.acquired ∧
          (statusDeref req.status Status.pending = Status.success ∨
            statusDeref req.status Status.pending = Status.failure))) :=
      fun hc => hna hc.2
    have heq : acquire opts now s req
        = (Except.error "status missmatch",
            setKnownMirror (cleanup s) req.headSHA
              (Request.mk e.headSHA req.headRef req.priority e.status
                e.lastSeenAt)) := by
      unfold acquire insert
      dsimp only
      rw [hl]
      dsimp only
      rw [he1]
      have he2 : (if (Request.mk e.headSHA e.headRef req.priority e.status
          e.lastSeenAt).headRef ≠ req.headRef then
            { Request.mk e.headSHA e.headRef req.priority e.status e.lastSeenAt
              with headRef := req.headRef }
          else Request.mk e.headSHA e.headRef req.priority e.status e.lastSeenAt)
          = Request.mk e.headSHA req.headRef req.priority e.status e.lastSeenAt := by
        split
        · rfl
        · rename_i hr
          rw [not_not] at hr
          dsimp only at hr ⊢
          rw [hr]
      rw [he2]
      rw [if_neg hcne, if_pos hmm]
    have hmemE : (req.headSHA, e) ∈ (cleanup s).known := lookupSHA_mem hl
    have hek : e.headSHA = req.headSHA := (inv_cleanup hinv).2.1 _ hmemE
    refine ⟨by rw [heq], ?_, ?_, ?_⟩
    · intro k
      rw [heq]
      show (lookupSHA (updateSHA (cleanup s).known req.headSHA _) k).map _ = _
      by_cases hk : k = req.headSHA
      · subst hk
        rw [lookupSHA_updateSHA_self _ hl, hl]
        rfl
      · rw [lookupSHA_updateSHA_ne _ (fun hh => hk hh)]
    · rw [heq]
      show ((cleanup s).acquired.map _).map _ = _
      cases hca : (cleanup s).acquired with
      | none => rfl
      | some a =>
        simp only [Option.map_some']
        by_cases hak : a.headSHA = req.headSHA
        · rw [if_pos hak]
          have hae : a = e := by
            rcases ((inv_cleanup hinv).2.2 a hca).2 with h2 | ⟨h2, _⟩
            · rw [hak, hl] at h2
              exact Option.some.inj h2.symm
            · rw [hak, hl] at h2
              cases h2
          rw [hae]
        · rw [if_neg hak]
    · rw [heq]
      show (lookupSHA (updateSHA (cleanup s).known req.headSHA _)
        req.headSHA).map _ = _
      rw [lookupSHA_updateSHA_self _ hl]
      rfl
  · intro hacq
    unfold release
    rw [hacq]
  · intro a hacq hne
    unfold release
    rw [hacq]
    dsimp only
    rw [if_pos hne]

/-- C7 witness: the rejection law instantiated at the single-PENDING-A
state with the illegal PENDING→SUCCESS assertion of priority 2. -/
theorem claim7_rejected_transitions_witness :
    (acquire opts3 0 c7s (Request.mk "A" "" 2 (some Status.success) 0)).1
      = Except.error "status missmatch" ∧
    (∀ k, (lookupSHA (acquire opts3 0 c7s
        (Request.mk "A" "" 2 (some Status.success) 0)).2.known k).map
        (fun r => r.status)
      = (lookupSHA (cleanup c7s).known k).map (fun r => r.status)) ∧
    ((acquire opts3 0 c7s
        (Request.mk "A" "" 2 (some Status.success) 0)).2.acquired.map
        (fun r => r.status)
      = (cleanup c7s).acquired.map (fun r => r.status)) ∧
    (lookupSHA (acquire opts3 0 c7s
        (Request.mk "A" "" 2 (some Status.success) 0)).2.known
        (Request.mk "A" "" 2 (some Status.success) 0).headSHA).map
        (fun r => (r.priority, r.headRef))
      = some ((Request.mk "A" "" 2 (some Status.success) 0).priority,
          (Request.mk "A" "" 2 (some Status.success) 0).headRef) :=
  (claim7_rejected_transitions opts3 0 c7s
      (Request.mk "A" "" 2 (some Status.success) 0)
      (inv_acquire opts3 0 (req0 "A" 1) (inv_initialState "q" 0))).2.1
    (Request.mk "A" "" 1 (some Status.pending) 0)
    (by decide) (by decide) (by decide)

end Lease

namespace Lease

theorem insert_facts {s : ProviderState} (opts : ProviderOpts) (now : Int)
    (req : Request) (hacq : s.acquired = none)
    (hnacq : ∀ kv ∈ s.known,
      statusDeref kv.2.status Status.pending ≠ Status.acquired) :
    (insert opts now s req).2.acquired = none ∧
    (∀ kv ∈ (insert opts now s req).2.known,
      statusDeref kv.2.status Status.pending ≠ Status.acquired) ∧
    ((insert opts now s req).2.lastUpdatedAt = now ∨
      (insert opts now s req).2.lastUpdatedAt = s.lastUpdatedAt) ∧
    ((insert opts now s req).2.known.length : Int) ≤
      (match lookupSHA s.known req.headSHA with
        | some _ => (s.known.length : Int)
        | none => (s.known.length : Int) + 1) ∧
    (∀ r, (insert opts now s req).1 = Except.ok (some r) →
      lookupSHA (insert opts now s req).2.known req.headSHA = some r) := by
  have hcl : cleanup s = s := by
    unfold cleanup
    rw [hacq]
  unfold insert
  dsimp only
  rw [hcl]
  cases hl : lookupSHA s.known req.headSHA with
  | none =>
    have hc1 : ¬ (s.acquired.isSome = true) := by rw [hacq]; simp
    rw [if_neg hc1]
    by_cases hbad : req.status.isSome ∧
        statusDeref req.status Status.pending ≠ Status.pending
    · rw [if_pos hbad]
      refine ⟨hacq, hnacq, Or.inr rfl, ?_, fun r hr => by cases hr⟩
      show (s.known.length : Int) ≤ (s.known.length : Int) + 1
      omega
    · rw [if_neg hbad]
      refine ⟨hacq, ?_, Or.inl rfl, ?_, ?_⟩
      · intro kv hkv
        rcases mem_insertSHA.mp (List.mem_filter.mp hkv).1 with h0 | h0
        · exact hnacq kv h0
        · rw [h0]; simp [statusDeref]
      · show ((List.filter (fun kv =>
            let st := statusDeref kv.2.status Status.pending
            decide (st = Status.acquired ∨ st = Status.success ∨
              ¬ (now - kv.2.lastSeenAt > opts.ttl)))
            (insertSHA s.known req.headSHA
              (Request.mk req.headSHA req.headRef req.priority
                (some Status.pending) now))).length : Int)
          ≤ (s.known.length : Int) + 1
        have h1 := List.length_filter_le
          (fun kv : String × Request =>
            let st := statusDeref kv.2.status Status.pending
            decide (st = Status.acquired ∨ st = Status.success ∨
              ¬ (now - kv.2.lastSeenAt > opts.ttl)))
          (insertSHA s.known req.headSHA
            (Request.mk req.headSHA req.headRef req.priority
              (some Status.pending) now))
        have h2 : (insertSHA s.known req.headSHA
            (Request.mk req.headSHA req.headRef req.priority
              (some Status.pending) now)).length = s.known.length + 1 := by
          simp [insertSHA]
        omega
      · intro r hr
        exact Except.ok.inj hr
  | some existing =>
    dsimp only
    have hmemE : (req.headSHA, existing) ∈ s.known := lookupSHA_mem hl
    have hnex : ¬ (statusDeref existing.status Status.pending = Status.acquired) :=
      hnacq _ hmemE
    have hcne : ¬ (statusDeref existing.status Status.pending ≠
        statusDeref req.status Status.pending ∧
        (statusDeref existing.status Status.pending = Status.acquired ∧
          (statusDeref req.status Status.pending = Status.success ∨
            statusDeref req.status Status.pending = Status.failure))) :=
      fun hc => hnex hc.2.1
    rw [if_neg hcne]
    have hstatE : ∀ (ref : String) (pri : Int) (seen : Int),
        statusDeref (Request.mk existing.headSHA ref pri existing.status
          seen).status Status.pending ≠ Status.acquired := by
      intro ref pri seen
      exact hnex
    have he1 : (if existing.priority ≠ req.priority then
        { existing with priority := req.priority } else existing)
        = Request.mk existing.headSHA existing.headRef req.priority
            existing.status existing.lastSeenAt := by
      split
      · rfl
      · rename_i hp
        rw [not_not] at hp
        cases existing
        dsimp only at hp ⊢
        rw [hp]
    rw [he1]
    have he2 : (if (Request.mk existing.headSHA existing.headRef req.priority
        existing.status existing.lastSeenAt).headRef ≠ req.headRef then
          { Request.mk existing.headSHA existing.headRef req.priority
              existing.status existing.lastSeenAt with headRef := req.headRef }
        else Request.mk existing.headSHA existing.headRef req.priority
          existing.status existing.lastSeenAt)
        = Request.mk existing.headSHA req.headRef req.priority
            existing.status existing.lastSeenAt := by
      split
      · rfl
      · rename_i hr
        dsimp only at hr ⊢
        rw [not_not] at hr
        rw [hr]
    rw [he2]
    by_cases hmm : statusDeref existing.status Status.pending ≠
        statusDeref req.status Status.pending
    · rw [if_pos hmm]
      refine ⟨?_, ?_, Or.inr rfl, ?_, fun r hr => by cases hr⟩
      · show s.acquired.map _ = none
        rw [hacq]
        rfl
      · intro kv hkv
        rcases mem_updateSHA hkv with h0 | h0
        · rw [h0]; exact hstatE _ _ _
        · exact hnacq kv h0
      · show ((updateSHA s.known req.headSHA _).length : Int) ≤ _
        rw [length_updateSHA]
    · rw [if_neg hmm]
      have hbody : ∀ (s3 : ProviderState),
          s3.acquired = (setKnownMirror s req.headSHA
            (Request.mk existing.headSHA req.headRef req.priority
              existing.status now)).acquired →
          s3.known = (setKnownMirror s req.headSHA
            (Request.mk existing.headSHA req.headRef req.priority
              existing.status now)).known →
          (evictTTL opts now s3).acquired = none ∧
          (∀ kv ∈ (evictTTL opts now s3).known,
            statusDeref kv.2.status Status.pending ≠ Status.acquired) ∧
          ((evictTTL opts now s3).known.length : Int) ≤ (s.known.length : Int) ∧
          (∀ r, (Except.ok (lookupSHA (evictTTL opts now s3).known req.headSHA)
              : Except String (Option Request)) = Except.ok (some r) →
            lookupSHA (evictTTL opts now s3).known req.headSHA = some r) := by
        intro s3 ha3 hk3
        refine ⟨?_, ?_, ?_, ?_⟩
        · show s3.acquired = none
          rw [ha3]
          show s.acquired.map _ = none
          rw [hacq]
          rfl
        · intro kv hkv
          have := (List.mem_filter.mp hkv).1
          rw [hk3] at this
          rcases mem_updateSHA this with h0 | h0
          · rw [h0]; exact hstatE _ _ _
          · exact hnacq kv h0
        · have h1 := List.length_filter_le
            (fun kv : String × Request =>
              let st := statusDeref kv.2.status Status.pending
              decide (st = Status.acquired ∨ st = Status.success ∨
                ¬ (now - kv.2.lastSeenAt > opts.ttl))) s3.known
          have h2 : s3.known.length = s.known.length := by
            rw [hk3]
            show (updateSHA s.known req.headSHA _).length = _
            rw [length_updateSHA]
          show ((List.filter (fun kv =>
              let st := statusDeref kv.2.status Status.pending
              decide (st = Status.acquired ∨ st = Status.success ∨
                ¬ (now - kv.2.lastSeenAt > opts.ttl))) s3.known).length : Int)
            ≤ (s.known.length : Int)
          omega
        · intro r hr
          exact Except.ok.inj hr
      by_cases hch : (decide ¬ existing.priority = req.priority) = true ∨
          (decide ¬ (Request.mk existing.headSHA existing.headRef req.priority
            existing.status existing.lastSeenAt).headRef = req.headRef) = true
      · rw [if_pos hch]
        obtain ⟨hx1, hx2, hx3, hx4⟩ := hbody _ rfl rfl
        exact ⟨hx1, hx2, Or.inl rfl, hx3, hx4⟩
      · rw [if_neg hch]
        obtain ⟨hx1, hx2, hx3, hx4⟩ := hbody _ rfl rfl
        exact ⟨hx1, hx2, Or.inr rfl, hx3, hx4⟩

end Lease

namespace Lease

/-- C4 — counterexample: with ExpectedRequestCount = 2 and one request A
already known, the state before the call satisfies all of the claim's
premises (`acquired` absent, |known| = 1 < 2, no time elapsed since
`lastUpdatedAt`, stabilisation 60 s), yet Acquire of the *new* request B
reaches the quorum within the same call and returns B as ACQUIRED. -/
theorem claim4_counterexample :
    (let opts : ProviderOpts :=
      { stabilizeDuration := 60, ttl := 3600, expectedRequestCount := 2 }
     let s := (acquire opts 0 (initialState "q" 0) (req0 "A" 1)).2
     s.acquired = none ∧ s.known.length = 1 ∧ (0 - s.lastUpdatedAt) < 60 ∧
       (acquire opts 0 s (req0 "B" 2)).1
         = Except.ok (Request.mk "B" "" 2 (some Status.acquired) 0) ∧
       (acquire opts 0 s (req0 "B" 2)).2.acquired ≠ none) := by decide

/-- C4 (amended): the stabilization law holds for an Acquire call that
does not itself complete the quorum: if `acquired` is absent, the clock
has not reached the stabilisation window, no known request is ACQUIRED,
and the number of requests counting the caller (|known| for an existing
head SHA, |known|+1 for a new one) is still below ExpectedRequestCount,
then the call elects nobody: `acquired` stays absent and neither the
returned request nor any stored request has status ACQUIRED.  (A clock
not behind `lastUpdatedAt` is assumed.) -/
theorem claim4_stabilization (opts : ProviderOpts) (now : Int)
    (s : ProviderState) (req : Request)
    (hacq : s.acquired = none)
    (hmono : 0 ≤ now - s.lastUpdatedAt)
    (hstab : now - s.lastUpdatedAt < opts.stabilizeDuration)
    (hnacq : ∀ kv ∈ s.known,
      statusDeref kv.2.status Status.pending ≠ Status.acquired)
    (hsize : (match lookupSHA s.known req.headSHA with
      | some _ => (s.known.length : Int) < opts.expectedRequestCount
      | none => (s.known.length : Int) + 1 < opts.expectedRequestCount)) :
    (acquire opts now s req).2.acquired = none ∧
    (∀ kv ∈ (acquire opts now s req).2.known,
      statusDeref kv.2.status Status.pending ≠ Status.acquired) ∧
    (∀ r, (acquire opts now s req).1 = Except.ok r →
      statusDeref r.status Status.pending ≠ Status.acquired) := by
  obtain ⟨ha2, hn2, hu2, hl2, hok2⟩ := insert_facts opts now req hacq hnacq
  have hsz2 : ((insert opts now s req).2.known.length : Int) <
      opts.expectedRequestCount := by
    cases hls : lookupSHA s.known req.headSHA with
    | none =>
      rw [hls] at hsize hl2
      have h1 : ((insert opts now s req).2.known.length : Int)
        ≤ (s.known.length : Int) + 1 := hl2
      have h2 : (s.known.length : Int) + 1 < opts.expectedRequestCount := hsize
      omega
    | some e =>
      rw [hls] at hsize hl2
      have h1 : ((insert opts now s req).2.known.length : Int)
        ≤ (s.known.length : Int) := hl2
      have h2 : (s.known.length : Int) < opts.expectedRequestCount := hsize
      omega
  unfold acquire
  cases hi : insert opts now s req with
  | mk res s' =>
    rw [hi] at ha2 hn2 hu2 hl2 hok2 hsz2
    cases res with
    | error e => exact ⟨ha2, hn2, fun r hr => by cases hr⟩
    | ok o =>
      cases o with
      | none => exact ⟨ha2, hn2, fun r hr => by cases hr⟩
      | some r =>
        dsimp only
        have hlr : lookupSHA s'.known req.headSHA = some r := hok2 r rfl
        rw [ha2]
        dsimp only
        have hstab' : ¬ (now - s'.lastUpdatedAt ≥ opts.stabilizeDuration) := by
          rcases hu2 with h0 | h0 <;> rw [h0] <;> omega
        have hquo' : ¬ ((s'.known.length : Int) ≥ opts.expectedRequestCount) := by
          have h1 : ((s'.known.length : Int)) < opts.expectedRequestCount := hsz2
          omega
        unfold evaluateRequest
        rw [ha2]
        dsimp only
        rw [if_pos ⟨hstab', hquo'⟩]
        refine ⟨ha2, hn2, ?_⟩
        intro r' hr'
        have hrr : r' = r := (Except.ok.inj hr').symm
        subst hrr
        exact hn2 (req.headSHA, r') (lookupSHA_mem hlr)

/-- C4 witness: instantiated with ExpectedRequestCount = 3 and the caller
A already present next to B (2 of 3 known, no clock movement): A's poll
elects nobody. -/
theorem claim4_stabilization_witness :
    (let s := (acquire opts3 0 ((acquire opts3 0 (initialState "q" 0)
      (req0 "A" 1)).2) (req0 "B" 2)).2
     (acquire opts3 0 s (req0 "A" 1)).2.acquired = none ∧
     (∀ kv ∈ (acquire opts3 0 s (req0 "A" 1)).2.known,
       statusDeref kv.2.status Status.pending ≠ Status.acquired) ∧
     (∀ r, (acquire opts3 0 s (req0 "A" 1)).1 = Except.ok r →
       statusDeref r.status Status.pending ≠ Status.acquired)) :=
  by
  refine claim4_stabilization opts3 0 _ (req0 "A" 1) (by decide) (by decide)
    (by decide) (by decide) ?_
  show ((2 : Nat) : Int) < ((3 : Nat) : Int)
  decide

end Lease

namespace Lease

/-- C8 — counterexample: the state reached by A(1), B(2), C(3) acquired
then Release(C, FAILURE) is reachable, yet it does not round-trip:
marshalling stores `acquired_sha = "C"` while `known` no longer holds
"C", so unmarshalling resolves `acquired` to the Go zero value `nil` —
the unmarshalled state has no acquired reference while the original
still does. -/
theorem claim8_counterexample :
    unmarshal none (marshal sFail) ≠ sFail ∧
    (unmarshal none (marshal sFail)).acquired = none ∧
    sFail.acquired ≠ none := by decide

/-- C8 (amended): serialization round-trips on every state whose
`acquired` reference is absent or still lives in `known` — which covers
all reachable states except those with the dangling reference left by a
FAILURE release (or a dropped completed holder); on those, unmarshalling
resolves `acquired` to absent. -/
theorem claim8_roundtrip (s : ProviderState)
    (h : s.acquired = none ∨
      ∃ a, s.acquired = some a ∧ lookupSHA s.known a.headSHA = some a) :
    unmarshal none (marshal s) = s := by
  obtain ⟨sid, slast, sacq, sknown⟩ := s
  have hknown : ((sknown.map (fun kv => (kv.1, requestToPayload kv.2))).map
      (fun kp => (kp.1, requestOfPayload kp.2))) = sknown := by
    rw [List.map_map]
    have hcomp : ((fun kp : String × RequestStorePayload =>
        (kp.1, requestOfPayload kp.2)) ∘
        (fun kv : String × Request => (kv.1, requestToPayload kv.2)))
        = id := by
      funext kv
      obtain ⟨k, v⟩ := kv
      cases v
      rfl
    rw [hcomp, List.map_id]
  rcases h with hacq | ⟨a, hacq, hl⟩
  · dsimp only at hacq
    subst hacq
    show ProviderState.mk sid slast none
      ((sknown.map (fun kv => (kv.1, requestToPayload kv.2))).map
        (fun kp => (kp.1, requestOfPayload kp.2))) = _
    rw [hknown]
  · dsimp only at hacq
    subst hacq
    dsimp only at hl
    show ProviderState.mk sid slast
      (lookupSHA ((sknown.map (fun kv => (kv.1, requestToPayload kv.2))).map
        (fun kp => (kp.1, requestOfPayload kp.2))) a.headSHA)
      ((sknown.map (fun kv => (kv.1, requestToPayload kv.2))).map
        (fun kp => (kp.1, requestOfPayload kp.2))) = _
    rw [hknown, hl]

/-- C8 witness: the round-trip law at the reachable state A(1), B(2),
C(3, acquired), whose acquired reference is live in `known`. -/
theorem claim8_roundtrip_witness : unmarshal none (marshal sABC) = sABC :=
  claim8_roundtrip sABC (Or.inr ⟨cAcq, by decide, by decide⟩)

end Lease

namespace Lease

/-- Whether `getPRNumberFromRef` succeeds on a ref. -/
def parseOK (ref : String) : Bool :=
  match getPRNumberFromRef ref with
  | Except.ok _ => true
  | Except.error _ => false

/-- The PR number of a parseable ref (0 on a parse failure; only used
under a `parseOK` hypothesis). -/
def prNumberD (ref : String) : Int :=
  match getPRNumberFromRef ref with
  | Except.ok n => n
  | Except.error _ => 0

theorem stackNumbers_ok_of_forall {l : List (String × Request)}
    (h : ∀ kv ∈ l, parseOK kv.2.headRef = true) :
    stackNumbers l = Except.ok (l.map (fun kv => prNumberD kv.2.headRef)) := by
  induction l with
  | nil => rfl
  | cons kv t ih =>
    have hkv := h kv (List.mem_cons_self _ _)
    unfold parseOK at hkv
    cases hn : getPRNumberFromRef kv.2.headRef with
    | error e => rw [hn] at hkv; cases hkv
    | ok n =>
      have ht := ih (fun kv' h' => h kv' (List.mem_cons_of_mem _ h'))
      have hd : prNumberD kv.2.headRef = n := by
        unfold prNumberD
        rw [hn]
      show (match getPRNumberFromRef kv.2.headRef with
        | Except.error e => Except.error e
        | Except.ok n => match stackNumbers t with
          | Except.error e => Except.error e
          | Except.ok ns => Except.ok (n :: ns)) = _
      rw [hn, ht, List.map_cons, hd]

theorem stackNumbers_error_of_mem {l : List (String × Request)}
    {kv : String × Request} (hkv : kv ∈ l)
    (he : parseOK kv.2.headRef = false) :
    ∃ e, stackNumbers l = Except.error e := by
  induction l with
  | nil => simp at hkv
  | cons kv' t ih =>
    cases hp : getPRNumberFromRef kv'.2.headRef with
    | error e =>
      refine ⟨e, ?_⟩
      show (match getPRNumberFromRef kv'.2.headRef with
        | Except.error e => Except.error e
        | Except.ok n => match stackNumbers t with
          | Except.error e => Except.error e
          | Except.ok ns => Except.ok (n :: ns)) = _
      rw [hp]
    | ok n =>
      have hkt : kv ∈ t := by
        rcases List.mem_cons.mp hkv with h0 | h0
        · exfalso
          rw [h0] at he
          unfold parseOK at he
          rw [hp] at he
          cases he
        · exact h0
      obtain ⟨e, hse⟩ := ih hkt
      refine ⟨e, ?_⟩
      show (match getPRNumberFromRef kv'.2.headRef with
        | Except.error e => Except.error e
        | Except.ok n => match stackNumbers t with
          | Except.error e => Except.error e
          | Except.ok ns => Except.ok (n :: ns)) = _
      rw [hp, hse]

theorem parseOK_false_of_nomatch {ref : String} (h : matchRef ref = none) :
    parseOK ref = false := by
  unfold parseOK getPRNumberFromRef
  rw [h]

/-- C9: `BuildRequestContext` attaches the stacked pull-request list
exactly for an ACQUIRED request; the list is the priority-filtered
(`≤ caller`), stably priority-sorted known requests mapped through the
`gh-readonly-queue/<baseRef>/pr-<number>-<hex>` ref parser; any filtered
head ref that does not match the grammar makes the call return an error.
The last two conjuncts pin the sort: the sorted list is a permutation of
the filtered requests and is ordered by ascending priority. -/
theorem claim9_buildRequestContext (s : ProviderState) (req : Request) :
    (statusDeref req.status Status.pending ≠ Status.acquired →
      buildRequestContext s req
        = Except.ok { request := req, stackedPullRequests := none }) ∧
    (statusDeref req.status Status.pending = Status.acquired →
      ((∃ kv ∈ stackedFilter s req, matchRef kv.2.headRef = none) →
        ∃ e, buildRequestContext s req = Except.error e) ∧
      ((∀ kv ∈ stackedFilter s req, parseOK kv.2.headRef = true) →
        buildRequestContext s req = Except.ok
          { request := req,
            stackedPullRequests := some ((stackedSorted s req).map
              (fun kv => prNumberD kv.2.headRef)) })) ∧
    (stackedSorted s req).Perm (stackedFilter s req) ∧
    (stackedSorted s req).Sorted priorityLE := by
  refine ⟨?_, ?_, ?_, ?_⟩
  · intro hne
    unfold buildRequestContext
    rw [if_pos hne]
  · intro hacq
    have hnn : ¬ (statusDeref req.status Status.pending ≠ Status.acquired) :=
      not_not.mpr hacq
    constructor
    · intro ⟨kv, hkv, hnm⟩
      have hkvS : kv ∈ stackedSorted s req :=
        ((List.perm_insertionSort priorityLE (stackedFilter s req)).mem_iff).mpr hkv
      obtain ⟨e, he⟩ :=
        stackNumbers_error_of_mem hkvS (parseOK_false_of_nomatch hnm)
      refine ⟨e, ?_⟩
      unfold buildRequestContext
      rw [if_neg hnn]
      show (match computeStackedPullRequests s req with
        | Except.error e => Except.error e
        | Except.ok l => Except.ok (RequestContext.mk req (some l))) = _
      unfold computeStackedPullRequests
      rw [he]
    · intro hall
      have hallS : ∀ kv ∈ stackedSorted s req, parseOK kv.2.headRef = true :=
        fun kv hkv => hall kv
          (((List.perm_insertionSort priorityLE (stackedFilter s req)).mem_iff).mp hkv)
      unfold buildRequestContext
      rw [if_neg hnn]
      show (match computeStackedPullRequests s req with
        | Except.error e => Except.error e
        | Except.ok l => Except.ok (RequestContext.mk req (some l))) = _
      unfold computeStackedPullRequests
      rw [stackNumbers_ok_of_forall hallS]
  · exact List.perm_insertionSort priorityLE _
  · exact List.sorted_insertionSort priorityLE _

end Lease

namespace Lease

/-- The C9 witness winner: an ACQUIRED request with a well-formed queue
ref. -/
def c9req : Request :=
  { headSHA := "s2", headRef := "gh-readonly-queue/main/pr-12-0a3f",
    priority := 2, status := some Status.acquired, lastSeenAt := 0 }

/-- The C9 witness state: a PENDING request of lower priority next to
the winner. -/
def c9s : ProviderState :=
  { id := "q", lastUpdatedAt := 0, acquired := some c9req,
    known := [("s1", Request.mk "s1" "gh-readonly-queue/main/pr-7-ff"
        1 (some Status.pending) 0), ("s2", c9req)] }

/-- C9 witness: the builder law instantiated on the concrete two-request
state — the winner gets the stacked list of both PR numbers in priority
order. -/
theorem claim9_buildRequestContext_witness :
    buildRequestContext c9s c9req = Except.ok
      { request := c9req,
        stackedPullRequests := some ((stackedSorted c9s c9req).map
          (fun kv => prNumberD kv.2.headRef)) } :=
  ((claim9_buildRequestContext c9s c9req).2.1 (by decide)).2 (by decide)

end Lease

namespace Lease

/-- The C2 scenario configuration (spec §8 scenario 6): one-hour
stabilisation, quorum of two, DelayAssignmentCount 2. -/
def c2opts : ProviderOpts :=
  { stabilizeDuration := 3600, ttl := 3600, expectedRequestCount := 2 }

def c2s0 : DelayProviderState := { base := initialState "q" 0, delayCounter := 0 }
def c2r1 := acquireDelay c2opts 2 0 c2s0 (req0 "A" 1)
def c2r2 := acquireDelay c2opts 2 0 c2r1.2 (req0 "B" 2)
def c2r3 := acquireDelay c2opts 2 0 c2r2.2 (req0 "B" 2)
def c2r4 := acquireDelay c2opts 2 0 c2r3.2 (req0 "B" 2)

/-- C2: in the delayed-assignment model (modelled from the spec, the
delay revision not being part of the sources), when the selection step
would elect the caller (no lock reference, quorum reached, caller's
priority maximal), the provider increments the delay counter and leaves
the caller untouched while the counter is below DelayAssignmentCount,
and assigns the lease (status ACQUIRED, `acquired` set) once the counter
has reached it; concretely, with ExpectedRequestCount = 2 and
DelayAssignmentCount = 2, after Acquire(A,1) the request B(2) is PENDING
on its first two Acquire calls (counter 1, then 2) and ACQUIRED on the
third. -/
theorem claim2_delayed_assignment :
    (∀ (opts : ProviderOpts) (d now : Int) (s : DelayProviderState)
        (key : String) (req : Request),
      s.base.acquired = none →
      (s.base.known.length : Int) ≥ opts.expectedRequestCount →
      req.priority = maxPriority s.base →
      (s.delayCounter < d →
        evaluateRequestDelay opts d now s key req
          = (req, { s with delayCounter := s.delayCounter + 1 })) ∧
      (¬ s.delayCounter < d →
        (evaluateRequestDelay opts d now s key req).1
          = { req with status := some Status.acquired } ∧
        (evaluateRequestDelay opts d now s key req).2.base.acquired
          = some { req with status := some Status.acquired })) ∧
    (c2r1.1 = Except.ok (Request.mk "A" "" 1 (some Status.pending) 0) ∧
     c2r2.1 = Except.ok (Request.mk "B" "" 2 (some Status.pending) 0) ∧
     c2r2.2.delayCounter = 1 ∧
     c2r3.1 = Except.ok (Request.mk "B" "" 2 (some Status.pending) 0) ∧
     c2r3.2.delayCounter = 2 ∧
     c2r4.1 = Except.ok (Request.mk "B" "" 2 (some Status.acquired) 0) ∧
     c2r4.2.base.acquired
       = some (Request.mk "B" "" 2 (some Status.acquired) 0)) := by
  constructor
  · intro opts d now s key req hacq hquo hpri
    unfold evaluateRequestDelay
    rw [hacq]
    dsimp only
    have hcnd : ¬ (¬ (now - s.base.lastUpdatedAt ≥ opts.stabilizeDuration) ∧
        ¬ ((s.base.known.length : Int) ≥ opts.expectedRequestCount)) :=
      fun hc => hc.2 hquo
    rw [if_neg hcnd]
    unfold electRequestDelay
    rw [if_pos hpri]
    constructor
    · intro hlt
      rw [if_pos hlt]
    · intro hge
      rw [if_neg hge]
      exact ⟨rfl, rfl⟩
  · exact ⟨by decide, by decide, by decide, by decide, by decide,
      by decide, by decide⟩

/-- C2 witness: the delay law applied at the concrete state after
Acquire(A,1) and one delayed Acquire(B,2) — counter 1 of 2, so B's next
evaluation stays PENDING and only bumps the counter. -/
theorem claim2_delayed_assignment_witness :
    evaluateRequestDelay c2opts 2 0 c2r2.2 "B"
        (Request.mk "B" "" 2 (some Status.pending) 0)
      = (Request.mk "B" "" 2 (some Status.pending) 0,
          { c2r2.2 with delayCounter := c2r2.2.delayCounter + 1 }) :=
  ((claim2_delayed_assignment.1 c2opts 2 0 c2r2.2 "B"
      (Request.mk "B" "" 2 (some Status.pending) 0)
      (by decide) (by decide) (by decide)).1 (by decide))

end Lease
